import Mathlib

/-!
# Music start and song-position synchronisation (`RageSounds.cpp`)

A shallow embedding of `src/stepmania/src/RageSounds.cpp`.  Every `float` of the
source is an exact rational here, a `CString` is a `String`, and the globals
guarded by `g_Mutex` are the fields of one record that each operation takes and
returns.  A section of the source that holds the mutex is one atomic step:
`PlayMusic`, `Update`, `HandleSongTimer`, the take of the worker, and the two
locked parts of `StartQueuedMusic`, between which other threads may run.  The
sums of seconds that `Update` publishes are binary32 sums in the source, where a
small positive delta can be absorbed; the theorems say which sum is published
and assert no ordering of it.
-/

namespace RageSounds

/-! ## Collaborators that live outside `RageSounds.cpp` -/

/-- Modelled from the spec: `fmodfp` of RageUtil is not among the sources.  The
spec has the fractional parts of the start and end beats taken with it, a value
in `[0,1)` for the modulus `1`; for a positive modulus `y` the result is the
representative of `x` in `[0,y)`. -/
def fmodfp (x y : ℚ) : ℚ := x - y * (⌊x / y⌋ : ℚ)

/-- The C library's `truncf`: rounding towards zero. -/
def truncf (x : ℚ) : ℚ := if 0 ≤ x then (⌊x⌋ : ℚ) else (⌈x⌉ : ℚ)

/-- A point in real time (`RageTimer`), in seconds. -/
abbrev RageTimer := ℚ

/-- The timer that `RageTimer when;` declares (the source's comment: zero). -/
def RageTimer.zero : RageTimer := 0

/-- One BPM change point: from `m_fStartBeat` on the tempo is `m_fBPM`. -/
structure BPMSegment where
  m_fStartBeat : ℚ
  m_fBPM : ℚ
deriving DecidableEq, Repr

/-- Modelled from the spec: `TimingData` is declared in `TimingData.h`, which is
not among the sources.  The spec's TimingModel: an ordered sequence of BPM change
points and a beat-zero offset in seconds. -/
structure TimingData where
  m_BPMSegments : List BPMSegment
  m_fBeat0OffsetInSeconds : ℚ
deriving DecidableEq, Repr

/-- Modelled from the spec: the `TimingData` a default constructor leaves, no
segment yet and offset zero. -/
def TimingData.new : TimingData := { m_BPMSegments := [], m_fBeat0OffsetInSeconds := 0 }

/-- Modelled from the spec: `TimingData::AddBPMSegment`, the change point joins
the sequence. -/
def TimingData.AddBPMSegment (t : TimingData) (seg : BPMSegment) : TimingData :=
  { t with m_BPMSegments := t.m_BPMSegments ++ [seg] }

/-- Modelled from the spec: seconds to beats along piecewise constant tempo; the
time falls in the first segment that is long enough to hold it. -/
def beatOfSegments : List BPMSegment → ℚ → ℚ
  | [], _ => 0
  | [seg], fElapsedTime => seg.m_fStartBeat + fElapsedTime * (seg.m_fBPM / 60)
  | seg :: next :: rest, fElapsedTime =>
      let fBPS := seg.m_fBPM / 60
      let fSecondsInThisSegment := (next.m_fStartBeat - seg.m_fStartBeat) / fBPS
      if fElapsedTime > fSecondsInThisSegment then
        beatOfSegments (next :: rest) (fElapsedTime - fSecondsInThisSegment)
      else seg.m_fStartBeat + fElapsedTime * fBPS

/-- Modelled from the spec: beats to seconds along piecewise constant tempo. -/
def secondsOfSegments : List BPMSegment → ℚ → ℚ
  | [], _ => 0
  | [seg], fBeat => (fBeat - seg.m_fStartBeat) / (seg.m_fBPM / 60)
  | seg :: next :: rest, fBeat =>
      let fBPS := seg.m_fBPM / 60
      if fBeat > next.m_fStartBeat then
        (next.m_fStartBeat - seg.m_fStartBeat) / fBPS + secondsOfSegments (next :: rest) fBeat
      else (fBeat - seg.m_fStartBeat) / fBPS

/-- Modelled from the spec: `TimingData::GetBeatFromElapsedTime` is not among the
sources.  The spec's `secondsToBeat`: elapsed seconds to beat number through the
piecewise BPM segments and the beat-zero offset (one segment at beat 0 with
120 BPM sends 2.0 seconds to beat 4.0).  The offset is added to the elapsed time,
which is what makes the offset `StartQueuedMusic` stores for an untimed song put
position zero of the new sound on the beat fraction it peeked at. -/
def TimingData.GetBeatFromElapsedTime (t : TimingData) (fElapsedTime : ℚ) : ℚ :=
  beatOfSegments t.m_BPMSegments (fElapsedTime + t.m_fBeat0OffsetInSeconds)

/-- Modelled from the spec: `TimingData::GetElapsedTimeFromBeat` is not among the
sources.  The spec's `beatToSeconds`, the inverse conversion (one segment at
beat 0 with 120 BPM sends beat 4.0 to 2.0 seconds). -/
def TimingData.GetElapsedTimeFromBeat (t : TimingData) (fBeat : ℚ) : ℚ :=
  secondsOfSegments t.m_BPMSegments fBeat - t.m_fBeat0OffsetInSeconds

/-- Modelled from the spec: the stop mode of a sound, the one it is constructed
with or `RageSound::M_LOOP`, the only one this file sets. -/
inductive StopMode where
  | M_DEFAULT
  | M_LOOP
deriving DecidableEq, Repr

/-- Modelled from the spec: `RageSound` is declared in `RageSound.h`, which is not
among the sources.  The record keeps what the calls of this file set on the
sound handle; a length or position of `none` is the call without an argument. -/
structure RageSound where
  m_sFilePath : String
  playing : Bool
  m_StopMode : StopMode
  m_StartSeconds : ℚ
  m_LengthSeconds : Option ℚ
  m_FadeLength : ℚ
  m_PositionSeconds : Option ℚ
  m_StartTime : RageTimer
deriving DecidableEq, Repr

/-- Modelled from the spec: a freshly constructed sound, nothing loaded, not
playing. -/
def RageSound.new : RageSound :=
  { m_sFilePath := "", playing := false, m_StopMode := StopMode.M_DEFAULT,
    m_StartSeconds := 0, m_LengthSeconds := none, m_FadeLength := 0,
    m_PositionSeconds := none, m_StartTime := RageTimer.zero }

/-- Modelled from the spec: `IsPlaying(handle)`. -/
def RageSound.IsPlaying (m : RageSound) : Bool := m.playing

/-- Modelled from the spec: the path of the file the sound has loaded. -/
def RageSound.GetLoadedFilePath (m : RageSound) : String := m.m_sFilePath

/-- Modelled from the spec: a stopped sound is not playing. -/
def RageSound.StopPlaying (m : RageSound) : RageSound := { m with playing := false }

/-- Modelled from the spec: an unloaded sound has no file and is not playing. -/
def RageSound.Unload (m : RageSound) : RageSound :=
  { m with m_sFilePath := "", playing := false }

/-- Modelled from the spec: `Load(path)`. -/
def RageSound.Load (m : RageSound) (file : String) : RageSound :=
  { m with m_sFilePath := file }

/-- Modelled from the spec: `Play(handle, startTimestamp)`, after which
`IsPlaying` answers true. -/
def RageSound.StartPlaying (m : RageSound) : RageSound := { m with playing := true }

/-- Lower-case form of a string, character by character. -/
def lowered (s : String) : List Char := s.data.map Char.toLower

/-- Embeds `CString::CompareNoCase`: zero exactly when the two strings are equal up to
the case of their letters. -/
def CompareNoCase (a b : String) : Int :=
  if lowered a = lowered b then 0 else if lowered a < lowered b then -1 else 1

/-- Modelled from the spec: a parsed timing-metadata file (`MsdFile`), its values,
each a list of parameters. -/
structure MsdFile where
  m_Values : List (List String)
deriving DecidableEq, Repr

/-- What the code reads from outside the program: the file system, the `.sm`
parser, the sound driver's latency and RageUtil's `SetExtension`. -/
structure Env where
  IsAFile : String → Bool
  ReadFile : String → Option MsdFile
  LoadTimingFromSMFile : MsdFile → TimingData → TimingData
  GetPlayLatency : ℚ
  SetExtension : String → String → String

/-- Modelled from the spec: the part of `GAMESTATE` this file reads and writes,
the published seconds and beat and the time of the last beat update. -/
structure GameState where
  m_fMusicSeconds : ℚ
  m_fSongBeat : ℚ
  m_LastBeatUpdate : RageTimer
deriving DecidableEq, Repr

/-- Modelled from the spec: `GameState::UpdateSongPosition` is not among the
sources.  The spec's game-state sink `PublishPosition(seconds, beat)`: the
seconds are published with the beat the given timing model assigns to them. -/
def GameState.UpdateSongPosition (g : GameState) (fPositionSeconds : ℚ)
    (timing : TimingData) : GameState :=
  { g with m_fMusicSeconds := fPositionSeconds,
           m_fSongBeat := timing.GetBeatFromElapsedTime fPositionSeconds }

/-! ## The data of `RageSounds.cpp` -/

structure MusicPlaying where
  m_TimingDelayed : Bool
  m_HasTiming : Bool
  m_Timing : TimingData
  m_NewTiming : TimingData
  m_Music : RageSound
deriving DecidableEq, Repr

/-- The constructor `MusicPlaying::MusicPlaying`. -/
def MusicPlaying.new : MusicPlaying :=
  { m_Timing := TimingData.new.AddBPMSegment ⟨0, 120⟩,
    m_NewTiming := TimingData.new.AddBPMSegment ⟨0, 120⟩,
    m_HasTiming := false,
    m_TimingDelayed := false,
    m_Music := RageSound.new }

structure MusicToPlay where
  file : String
  timing_file : String
  HasTiming : Bool
  force_loop : Bool
  start_sec : ℚ
  length_sec : ℚ
  fade_len : ℚ
deriving DecidableEq, Repr

/-- The static `g_MusicToPlay` before any request: every field zero. -/
def MusicToPlay.empty : MusicToPlay :=
  { file := "", timing_file := "", HasTiming := false, force_loop := false,
    start_sec := 0, length_sec := 0, fade_len := 0 }

/-- Embeds `g_ThreadedMusicStart`, a static that is initialised to `true` and never
assigned. -/
def g_ThreadedMusicStart : Bool := true

/-- The globals behind `g_Mutex`, with the published song position. -/
structure Globals where
  g_UpdatingTimer : Bool
  g_MusicToPlay : MusicToPlay
  g_Playing : MusicPlaying
  GAMESTATE : GameState
deriving DecidableEq, Repr

/-- The globals as the constructor `RageSounds::RageSounds` leaves them. -/
def Globals.init (g : GameState) : Globals :=
  { g_UpdatingTimer := false, g_MusicToPlay := MusicToPlay.empty,
    g_Playing := MusicPlaying.new, GAMESTATE := g }

/-! ## Starting a queued music -/

/-- Embeds `StartPlayingQueuedMusic( when, ToPlay, Playing )`. -/
def StartPlayingQueuedMusic (when : RageTimer) (ToPlay : MusicToPlay)
    (Playing : MusicPlaying) : MusicPlaying :=
  let Playing := { Playing with m_HasTiming := ToPlay.HasTiming }
  let Playing := { Playing with m_TimingDelayed := true }
  let m := Playing.m_Music.Load ToPlay.file
  let m := if ToPlay.force_loop then { m with m_StopMode := StopMode.M_LOOP } else m
  let m := { m with m_StartSeconds := ToPlay.start_sec }
  let m :=
    if ToPlay.length_sec = -1 then { m with m_LengthSeconds := none }
    else { m with m_LengthSeconds := some ToPlay.length_sec }
  let m := { m with m_FadeLength := ToPlay.fade_len }
  let m := { m with m_PositionSeconds := none }
  let m := { m with m_StartTime := when }
  let m := m.StartPlaying
  { Playing with m_Music := m }

/-- Embeds `StartQueuedMusic`, lines 97-112: look for timing data.  The result is
the new value of `ToPlay.HasTiming` and of `NewMusic->m_NewTiming`. -/
def findTiming (env : Env) (timing_file : String) (m_NewTiming : TimingData) :
    Bool × TimingData :=
  if env.IsAFile timing_file then
    match env.ReadFile timing_file with
    | none => (false, m_NewTiming)
    | some msd => (true, env.LoadTimingFromSMFile msd m_NewTiming)
  else (false, m_NewTiming)

/-- Embeds `StartQueuedMusic`, lines 120-125: the forward difference of the beat
fractions, `fBeatDifference` after the unwrap. -/
def fBeatDifference (fStartBeat fEndBeat : ℚ) : ℚ :=
  let fStartBeatFraction := fmodfp fStartBeat 1
  let fEndBeatFraction := fmodfp fEndBeat 1
  let fBeatDifference := fStartBeatFraction - fEndBeatFraction
  if fBeatDifference < 0 then fBeatDifference + 1 else fBeatDifference

/-- Embeds `StartQueuedMusic`, lines 116-127: the end beat of the loop after the
correction. -/
def correctedEndBeat (m_NewTiming : TimingData) (start_sec length_sec : ℚ) : ℚ :=
  let fStartBeat := m_NewTiming.GetBeatFromElapsedTime start_sec
  let fEndSec := start_sec + length_sec
  let fEndBeat := m_NewTiming.GetBeatFromElapsedTime fEndSec
  fEndBeat + fBeatDifference fStartBeat fEndBeat

/-- Embeds `StartQueuedMusic`, lines 114-131: the new `ToPlay.length_sec`. -/
def correctLength (m_NewTiming : TimingData) (ToPlay : MusicToPlay) : MusicToPlay :=
  if ToPlay.HasTiming && ToPlay.force_loop && (ToPlay.length_sec != -1) then
    let fEndBeat := correctedEndBeat m_NewTiming ToPlay.start_sec ToPlay.length_sec
    let fRealEndSec := m_NewTiming.GetElapsedTimeFromBeat fEndBeat
    { ToPlay with length_sec := fRealEndSec - ToPlay.start_sec }
  else ToPlay

/-- Embeds `StartQueuedMusic`, lines 134-144: a song without timing data gets the
offset that lines its beat up with the current song beat. -/
def untimedOffset (m_fSongBeat : ℚ) (m_NewTiming : TimingData) : TimingData :=
  let fDestBeat := fmodfp m_fSongBeat 1
  let fTime := m_NewTiming.GetElapsedTimeFromBeat fDestBeat
  { m_NewTiming with m_fBeat0OffsetInSeconds := fTime }

/-- Embeds `StartQueuedMusic`, lines 133-149: the value of `StartImmediately` at the
test of line 152. -/
def StartImmediately (HasTiming : Bool) (s_HasTiming g_UpdatingTimer : Bool) : Bool :=
  let StartImmediately := false
  let StartImmediately := if !HasTiming then true else StartImmediately
  if !s_HasTiming && !g_UpdatingTimer then true else StartImmediately

/-- Embeds `StartQueuedMusic`, lines 160-168: `fCurBeatToStartOn`, the beat of the
current song on which the new sound starts. -/
def fCurBeatToStartOn (fCurBeat fStartBeat : ℚ) : ℚ :=
  let fCurBeatFraction := fmodfp fCurBeat 1
  let fStartBeatFraction := fmodfp fStartBeat 1
  let fStartBeatFraction :=
    if fStartBeatFraction < fCurBeatFraction then fStartBeatFraction + 1
    else fStartBeatFraction
  truncf fCurBeat + fStartBeatFraction

/-- Embeds `StartQueuedMusic`, lines 157-172: the time at which the new sound is to
start when it does not start immediately. -/
def alignedStart (env : Env) (s : Globals) (m_NewTiming : TimingData) (start_sec : ℚ) :
    RageTimer :=
  let PresumedLatency := env.GetPlayLatency + 40 / 1000
  let fCurSecond := s.GAMESTATE.m_fMusicSeconds + PresumedLatency
  let fCurBeat := s.g_Playing.m_Timing.GetBeatFromElapsedTime fCurSecond
  let fStartBeat := m_NewTiming.GetBeatFromElapsedTime start_sec
  let fCurBeatToStartOn := fCurBeatToStartOn fCurBeat fStartBeat
  let fSecondToStartOn := s.g_Playing.m_Timing.GetElapsedTimeFromBeat fCurBeatToStartOn
  let fDistance := fSecondToStartOn - fCurSecond
  s.GAMESTATE.m_LastBeatUpdate + PresumedLatency + fDistance

/-- Embeds `StartQueuedMusic`, lines 93-178, for a request with a file: the part
under the first lock, which reads the globals and writes none, and the call of
`StartPlayingQueuedMusic` outside the lock.  The result is the final `ToPlay`
and the slot `NewMusic`, which no other thread can see yet. -/
def buildQueuedMusic (env : Env) (ToPlay : MusicToPlay) (s : Globals) :
    MusicToPlay × MusicPlaying :=
  let NewMusic := { MusicPlaying.new with m_Timing := s.g_Playing.m_Timing }
  let found := findTiming env ToPlay.timing_file NewMusic.m_NewTiming
  let ToPlay := { ToPlay with HasTiming := found.1 }
  let NewMusic := { NewMusic with m_NewTiming := found.2 }
  let ToPlay := correctLength NewMusic.m_NewTiming ToPlay
  let NewMusic :=
    if !ToPlay.HasTiming then
      { NewMusic with
        m_NewTiming := untimedOffset s.GAMESTATE.m_fSongBeat NewMusic.m_NewTiming }
    else NewMusic
  let when :=
    if !StartImmediately ToPlay.HasTiming s.g_Playing.m_HasTiming s.g_UpdatingTimer then
      alignedStart env s NewMusic.m_NewTiming ToPlay.start_sec
    else RageTimer.zero
  (ToPlay, StartPlayingQueuedMusic when ToPlay NewMusic)

/-- Embeds `StartQueuedMusic`, lines 180-182, under the second lock: the new slot
replaces the current one. -/
def commitQueuedMusic (NewMusic : MusicPlaying) (s : Globals) : Globals :=
  { s with g_Playing := NewMusic }

/-- Embeds `StartQueuedMusic( ToPlay )` run with no other thread in between: the
slot is built and committed over the same globals.  `ToPlay` is passed by
reference, so its final value is returned with the globals. -/
def StartQueuedMusic (env : Env) (ToPlay : MusicToPlay) (s : Globals) :
    MusicToPlay × Globals :=
  if ToPlay.file = "" then (ToPlay, s)
  else
    let built := buildQueuedMusic env ToPlay s
    (built.1, commitQueuedMusic built.2 s)

/-- One pass of the loop of `MusicThread_start` up to `L.Unlock()`: the request
taken from the mailbox, if there is one, and the globals after the take. -/
def MusicThread_take (s : Globals) : Option MusicToPlay × Globals :=
  if s.g_MusicToPlay.file.length = 0 then (none, s)
  else
    let ToPlay := s.g_MusicToPlay
    (some ToPlay, { s with g_MusicToPlay := { s.g_MusicToPlay with file := "" } })

/-- One whole pass of the loop of `MusicThread_start` run with no other thread in
between.  The source gives up the lock after the take (line 200) and again
before the sound is loaded (line 176); what may run there is an `Interleaved`
step below. -/
def MusicThread_pass (env : Env) (s : Globals) : Globals :=
  match MusicThread_take s with
  | (none, s) => s
  | (some ToPlay, s) => (StartQueuedMusic env ToPlay s).2

/-! ## The calls of the game thread -/

/-- Embeds `RageSounds::Update( fDeltaTime )`.  `fSeconds` and `approximate` are
what `m_Music.GetPositionSeconds( &approximate )` answers on this call; they are read
only when the sound is playing. -/
def Update (fDeltaTime : ℚ) (fSeconds : ℚ) (approximate : Bool) (s : Globals) : Globals :=
  if !s.g_UpdatingTimer then s
  else if !s.g_Playing.m_Music.IsPlaying then
    { s with
      GAMESTATE :=
        (s.GAMESTATE.UpdateSongPosition (s.GAMESTATE.m_fMusicSeconds + fDeltaTime)
          s.g_Playing.m_Timing) }
  else
    let g_Playing :=
      if s.g_Playing.m_TimingDelayed && !approximate then
        { s.g_Playing with
          m_Timing := s.g_Playing.m_NewTiming
          m_TimingDelayed := false }
      else s.g_Playing
    if approximate then
      { s with
        g_Playing := g_Playing
        GAMESTATE :=
          (s.GAMESTATE.UpdateSongPosition (s.GAMESTATE.m_fMusicSeconds + fDeltaTime)
            g_Playing.m_Timing) }
    else
      { s with
        g_Playing := g_Playing
        GAMESTATE := s.GAMESTATE.UpdateSongPosition fSeconds g_Playing.m_Timing }

/-- Embeds `RageSounds::GetMusicPath()`. -/
def GetMusicPath (s : Globals) : String := s.g_Playing.m_Music.GetLoadedFilePath

/-- Embeds `RageSounds::PlayMusic`, lines 303-314: the request built from the
arguments of the call.  The local `ToPlay` is declared without an initialiser
and `HasTiming` is never assigned, so the field holds an indeterminate value:
`indeterminate` stands for it. -/
def requestOf (env : Env) (indeterminate : Bool) (file timing_file : String)
    (force_loop : Bool) (start_sec length_sec fade_len : ℚ) : MusicToPlay :=
  { file := file,
    timing_file := if timing_file = "" then env.SetExtension file "sm" else timing_file,
    HasTiming := indeterminate, force_loop := force_loop, start_sec := start_sec,
    length_sec := length_sec, fade_len := fade_len }

/-- Embeds `RageSounds::PlayMusic( file, timing_file, force_loop, start_sec,
length_sec, fade_len )`.  `indeterminate` is the value that the unassigned field
`ToPlay.HasTiming` happens to hold in this call; `StartQueuedMusic` assigns the
field before it reads it. -/
def PlayMusic (env : Env) (indeterminate : Bool) (file timing_file : String)
    (force_loop : Bool) (start_sec length_sec fade_len : ℚ) (s : Globals) : Globals :=
  if s.g_Playing.m_Music.IsPlaying
      && CompareNoCase s.g_Playing.m_Music.GetLoadedFilePath file == 0 then s
  else
    let m := if s.g_Playing.m_Music.IsPlaying then s.g_Playing.m_Music.StopPlaying
             else s.g_Playing.m_Music
    let m := m.Unload
    let s := { s with g_Playing := { s.g_Playing with m_Music := m } }
    let ToPlay :=
      requestOf env indeterminate file timing_file force_loop start_sec length_sec fade_len
    if g_ThreadedMusicStart then { s with g_MusicToPlay := ToPlay }
    else (StartQueuedMusic env ToPlay s).2

/-- Embeds `RageSounds::HandleSongTimer( on )`; the argument `on` is `bOn` here. -/
def HandleSongTimer (bOn : Bool) (s : Globals) : Globals := { s with g_UpdatingTimer := bOn }

/-! ## Sequences of frames -/

/-- What one call of `Update` meets: the song timer as the calls of
`HandleSongTimer` since the last frame left it, the answers of the sound
(`IsPlaying`, and the position with its `approximate` flag), and the frame's
delta. -/
structure Frame where
  g_UpdatingTimer : Bool
  IsPlaying : Bool
  approximate : Bool
  fSeconds : ℚ
  fDeltaTime : ℚ
deriving DecidableEq, Repr

/-- The driver's side of a frame: whether the sound of the current slot is still
playing. -/
def setPlaying (playing : Bool) (s : Globals) : Globals :=
  { s with
    g_Playing :=
      { s.g_Playing with m_Music := { s.g_Playing.m_Music with playing := playing } } }

/-- One frame: the song timer and the sound are as the frame says, then `Update`
runs. -/
def UpdateFrame (s : Globals) (f : Frame) : Globals :=
  Update f.fDeltaTime f.fSeconds f.approximate
    (setPlaying f.IsPlaying (HandleSongTimer f.g_UpdatingTimer s))

/-- A sequence of frames, first to last. -/
def UpdateFrames (s : Globals) (fs : List Frame) : Globals := fs.foldl UpdateFrame s

/-- The frame reads the position of the sound and the position is not
approximate: the song timer is on, the sound is playing, `approximate` is false. -/
def Frame.readsExact (f : Frame) : Bool := f.g_UpdatingTimer && f.IsPlaying && !f.approximate

/-- The frame extrapolates over a sound that is starting: the song timer is on,
the sound is playing and its position is approximate. -/
def Frame.readsApproximate (f : Frame) : Bool :=
  f.g_UpdatingTimer && f.IsPlaying && f.approximate

/-- What may run between two calls of `PlayMusic`, or between such a call and the
next take of the worker, without touching the mailbox: a frame of the game
thread, a call of `HandleSongTimer`, or the commit (lines 180-182) of a start that the worker took earlier
and has been building outside the lock. -/
inductive Interleaved where
  | frame (f : Frame)
  | timer (bOn : Bool)
  | commit (NewMusic : MusicPlaying)

/-- One interleaved step. -/
def Interleaved.run (s : Globals) : Interleaved → Globals
  | Interleaved.frame f => UpdateFrame s f
  | Interleaved.timer bOn => HandleSongTimer bOn s
  | Interleaved.commit NewMusic => commitQueuedMusic NewMusic s

/-- A sequence of interleaved steps, first to last. -/
def runInterleaved (s : Globals) (steps : List Interleaved) : Globals :=
  steps.foldl Interleaved.run s

/-! ## Sample values -/

/-- A sample `SetExtension`: the text after the last dot is replaced. -/
def sampleSetExtension (file ext : String) : String :=
  String.mk ((file.data.reverse.dropWhile (fun c => c != '.')).reverse ++ ext.data)

/-- A sample world: `b.sm` is a readable timing file with one 60 BPM segment,
`bad.sm` exists and cannot be read, nothing else exists. -/
def sampleEnv : Env :=
  { IsAFile := fun path => path == "b.sm" || path == "bad.sm",
    ReadFile := fun path => if path == "b.sm" then some ⟨[]⟩ else none,
    LoadTimingFromSMFile := fun _ _ => ⟨[⟨0, 60⟩], 0⟩,
    GetPlayLatency := 0,
    SetExtension := sampleSetExtension }

/-- A sample state: the song timer is on, `b.ogg` has been started with 60 BPM
timing that is still pending, and the published position is 10 seconds. -/
def sampleGlobals : Globals :=
  { g_UpdatingTimer := true,
    g_MusicToPlay := MusicToPlay.empty,
    g_Playing :=
      { MusicPlaying.new with
        m_TimingDelayed := true
        m_HasTiming := true
        m_NewTiming := ⟨[⟨0, 60⟩], 0⟩
        m_Music := { RageSound.new with m_sFilePath := "b.ogg", playing := true } },
    GAMESTATE := { m_fMusicSeconds := 10, m_fSongBeat := 20, m_LastBeatUpdate := 100 } }

/-- A state the program reaches: from the initial globals with 10 seconds
published, the song timer is turned on, `PlayMusic("b.ogg")` is called and the
worker makes one pass, which starts the sound. -/
def startedGlobals : Globals :=
  MusicThread_pass sampleEnv
    (PlayMusic sampleEnv false "b.ogg" "" false 0 (-1) 0
      (HandleSongTimer true (Globals.init ⟨10, 20, 100⟩)))

/-- A state the program reaches: `PlayMusic("b.ogg")` over the initial globals,
then the take of the worker.  The worker now holds the request for `b.ogg` and
no lock. -/
def takenGlobals : Globals :=
  (MusicThread_take
    (PlayMusic sampleEnv false "b.ogg" "" false 0 (-1) 0 (Globals.init ⟨10, 20, 100⟩))).2

/-- The slot the worker builds for `b.ogg` from `takenGlobals`, before it is
committed. -/
def builtSlot : MusicPlaying :=
  (buildQueuedMusic sampleEnv (requestOf sampleEnv false "b.ogg" "" false 0 (-1) 0)
    takenGlobals).2

/-- A sample request: loop `b.ogg` from 1 second for 3/2 seconds, with the timing
file `b.sm`. -/
def sampleRequest : MusicToPlay :=
  { file := "b.ogg", timing_file := "b.sm", HasTiming := false, force_loop := true,
    start_sec := 1, length_sec := 3 / 2, fade_len := 0 }

/-- A sample frame in which the position of the playing sound is approximate. -/
def approximateFrame : Frame :=
  { g_UpdatingTimer := true, IsPlaying := true, approximate := true, fSeconds := 0,
    fDeltaTime := 1 / 2 }

/-- A sample frame in which the sound reports its real position, zero. -/
def exactFrame : Frame :=
  { g_UpdatingTimer := true, IsPlaying := true, approximate := false, fSeconds := 0,
    fDeltaTime := 1 / 2 }

/-- A sample frame in which no sound is playing. -/
def silentFrame : Frame :=
  { g_UpdatingTimer := true, IsPlaying := false, approximate := false, fSeconds := 0,
    fDeltaTime := 1 / 2 }

end RageSounds

/-! # Hold-note culling (`NoteField.cpp`)

The test of `NoteField::DrawPrimitives` that decides whether a hold note is
drawn.  Beats are exact rationals. -/

namespace NoteField

/-- The fields of a `HoldNote` (a type declared outside these sources) that
`DrawPrimitives` reads. -/
structure HoldNote where
  iTrack : Int
  fStartBeat : ℚ
  fEndBeat : ℚ
deriving DecidableEq, Repr

/-- Embeds `NoteField::DrawPrimitives`, lines 324-326: the three-way disjunction
that the on-screen test negates. -/
def partOnScreen (fFirstBeatToDraw fLastBeatToDraw : ℚ) (hn : HoldNote) : Bool :=
  (decide (fFirstBeatToDraw ≤ hn.fEndBeat) && decide (hn.fEndBeat ≤ fLastBeatToDraw)) ||
    (decide (fFirstBeatToDraw ≤ hn.fStartBeat) && decide (hn.fStartBeat ≤ fLastBeatToDraw)) ||
    (decide (hn.fStartBeat < fFirstBeatToDraw) && decide (hn.fEndBeat > fLastBeatToDraw))

/-- Embeds `NoteField::DrawPrimitives`, lines 323-329: the hold note is skipped by
the on-screen test. -/
def skippedOffScreen (fFirstBeatToDraw fLastBeatToDraw : ℚ) (hn : HoldNote) : Bool :=
  !partOnScreen fFirstBeatToDraw fLastBeatToDraw hn

/-- Embeds `NoteField::DrawPrimitives`, lines 311-336, the body of the loop over
the hold notes for column `c`: whether `DrawHold` is reached for this note.
`bCompleted` is the outcome of the test `hns == HNS_OK`. -/
def drawsHold (c : Int) (fFirstBeatToDraw fLastBeatToDraw : ℚ) (hn : HoldNote)
    (bCompleted : Bool) : Bool :=
  if bCompleted then false
  else if hn.iTrack ≠ c then false
  else if skippedOffScreen fFirstBeatToDraw fLastBeatToDraw hn then false
  else true

/-- A sample hold note: column 2, from beat 3 to beat 30. -/
def sampleHold : HoldNote := { iTrack := 2, fStartBeat := 3, fEndBeat := 30 }

end NoteField

namespace RageSounds

/-! ## Lemmas on one frame -/

theorem UpdateFrames_take_succ (s : Globals) (fs : List Frame) (k : ℕ) (hk : k < fs.length) :
    UpdateFrames s (fs.take (k + 1)) = UpdateFrame (UpdateFrames s (fs.take k)) fs[k] := by
  unfold UpdateFrames
  rw [← List.take_concat_get fs k hk, List.concat_eq_append, List.foldl_append]
  rfl

/-- The first frame that reads an exact position does read one. -/
theorem readsExact_at_first (fs : List Frame)
    (hw : fs.findIdx Frame.readsExact < fs.length) :
    Frame.readsExact fs[fs.findIdx Frame.readsExact] = true :=
  List.findIdx_getElem

/-- No frame writes `m_NewTiming`. -/
theorem UpdateFrame_m_NewTiming (s : Globals) (f : Frame) :
    (UpdateFrame s f).g_Playing.m_NewTiming = s.g_Playing.m_NewTiming := by
  unfold UpdateFrame Update setPlaying HandleSongTimer
  dsimp only
  split_ifs <;> rfl

/-- A frame that does not read an exact position leaves the timing of the slot
and its delayed flag as they were. -/
theorem UpdateFrame_of_not_readsExact (s : Globals) (f : Frame)
    (hf : f.readsExact = false) :
    (UpdateFrame s f).g_Playing.m_Timing = s.g_Playing.m_Timing ∧
      (UpdateFrame s f).g_Playing.m_TimingDelayed = s.g_Playing.m_TimingDelayed := by
  unfold Frame.readsExact at hf
  unfold UpdateFrame Update setPlaying HandleSongTimer RageSound.IsPlaying
  dsimp only
  cases h1 : f.g_UpdatingTimer <;> cases h2 : f.IsPlaying <;> cases h3 : f.approximate <;>
    simp_all

/-- A frame that reads an exact position on a delayed slot installs the new
timing and clears the flag. -/
theorem UpdateFrame_of_readsExact (s : Globals) (f : Frame)
    (hf : f.readsExact = true) (hd : s.g_Playing.m_TimingDelayed = true) :
    (UpdateFrame s f).g_Playing.m_Timing = s.g_Playing.m_NewTiming ∧
      (UpdateFrame s f).g_Playing.m_TimingDelayed = false := by
  unfold Frame.readsExact at hf
  unfold UpdateFrame Update setPlaying HandleSongTimer RageSound.IsPlaying
  dsimp only
  cases h1 : f.g_UpdatingTimer <;> cases h2 : f.IsPlaying <;> cases h3 : f.approximate <;>
    simp_all

/-- On a slot whose flag is clear no frame writes the timing or sets the flag. -/
theorem UpdateFrame_of_not_delayed (s : Globals) (f : Frame)
    (hd : s.g_Playing.m_TimingDelayed = false) :
    (UpdateFrame s f).g_Playing.m_Timing = s.g_Playing.m_Timing ∧
      (UpdateFrame s f).g_Playing.m_TimingDelayed = false := by
  unfold UpdateFrame Update setPlaying HandleSongTimer RageSound.IsPlaying
  dsimp only
  cases h1 : f.g_UpdatingTimer <;> cases h2 : f.IsPlaying <;> cases h3 : f.approximate <;>
    simp_all

theorem UpdateFrames_m_NewTiming (s : Globals) (fs : List Frame) :
    (UpdateFrames s fs).g_Playing.m_NewTiming = s.g_Playing.m_NewTiming := by
  induction fs generalizing s with
  | nil => rfl
  | cons f fs ih =>
    have h := ih (UpdateFrame s f)
    simp only [UpdateFrames, List.foldl_cons] at h ⊢
    rw [h, UpdateFrame_m_NewTiming]

/-- Up to and including the frames before the first exact read, the slot keeps
its timing and stays delayed. -/
theorem UpdateFrames_before_first (s : Globals) (fs : List Frame)
    (hd : s.g_Playing.m_TimingDelayed = true) (k : ℕ)
    (hk : k ≤ fs.findIdx Frame.readsExact) :
    (UpdateFrames s (fs.take k)).g_Playing.m_Timing = s.g_Playing.m_Timing ∧
      (UpdateFrames s (fs.take k)).g_Playing.m_TimingDelayed = true := by
  induction k with
  | zero => simp [UpdateFrames, hd]
  | succ k ih =>
    have hlt : k < fs.findIdx Frame.readsExact := hk
    have hlen : k < fs.length := lt_of_lt_of_le hlt (List.findIdx_le_length _)
    have hprev := ih (le_of_lt hlt)
    have hnot : Frame.readsExact fs[k] = false := List.not_of_lt_findIdx hlt
    have hstep := UpdateFrame_of_not_readsExact (UpdateFrames s (fs.take k)) fs[k] hnot
    rw [UpdateFrames_take_succ s fs k hlen]
    exact ⟨hstep.1.trans hprev.1, hstep.2.trans hprev.2⟩

/-- After the first exact read the flag is clear for good. -/
theorem UpdateFrames_after_first (s : Globals) (fs : List Frame)
    (hd : s.g_Playing.m_TimingDelayed = true) (k : ℕ) (hk : k ≤ fs.length)
    (hfirst : fs.findIdx Frame.readsExact < k) :
    (UpdateFrames s (fs.take k)).g_Playing.m_TimingDelayed = false := by
  induction k with
  | zero => exact absurd hfirst (Nat.not_lt_zero _)
  | succ k ih =>
    have hlen : k < fs.length := hk
    rw [UpdateFrames_take_succ s fs k hlen]
    rcases Nat.lt_or_ge (fs.findIdx Frame.readsExact) k with h | h
    · exact (UpdateFrame_of_not_delayed _ _ (ih (le_of_lt hlen) h)).2
    · have heq : k = fs.findIdx Frame.readsExact := le_antisymm h (Nat.lt_succ_iff.mp hfirst)
      have hex : Frame.readsExact fs[k] = true := by
        have hw : fs.findIdx Frame.readsExact < fs.length := heq ▸ hlen
        have := readsExact_at_first fs hw
        simpa [heq] using this
      exact (UpdateFrame_of_readsExact _ _ hex (UpdateFrames_before_first s fs hd k h).2).2

/-! ## The timing swap -/

/-- C1: on a slot that starts with `m_TimingDelayed` set, take any sequence of
`Update` frames and look at frame `k`.  Before the first frame that reads an
exact position (song timer on, sound playing, position not approximate) the
frame leaves `m_Timing` as it was and the slot delayed; the first such frame
finds `m_Timing` still the one the slot started with, makes it `m_NewTiming` and
clears `m_TimingDelayed`; every later frame leaves `m_Timing` as it was and the
flag clear.  So `m_Timing` is written in at most one frame. -/
theorem timing_swapped_once_at_first_exact_read (s : Globals) (fs : List Frame)
    (hd : s.g_Playing.m_TimingDelayed = true) (k : ℕ) (hk : k < fs.length) :
    let first := fs.findIdx Frame.readsExact
    let before := (UpdateFrames s (fs.take k)).g_Playing
    let after := (UpdateFrames s (fs.take (k + 1))).g_Playing
    (k < first →
      Frame.readsExact fs[k] = false ∧
        after.m_Timing = before.m_Timing ∧ before.m_TimingDelayed = true ∧
        after.m_TimingDelayed = true) ∧
    (k = first →
      Frame.readsExact fs[k] = true ∧ (∀ g ∈ fs.take k, Frame.readsExact g = false) ∧
        before.m_Timing = s.g_Playing.m_Timing ∧ before.m_TimingDelayed = true ∧
        after.m_Timing = before.m_NewTiming ∧ after.m_NewTiming = s.g_Playing.m_NewTiming ∧
        after.m_TimingDelayed = false) ∧
    (first < k →
      after.m_Timing = before.m_Timing ∧ before.m_TimingDelayed = false ∧
        after.m_TimingDelayed = false) := by
  intro first before after
  have hstep := UpdateFrames_take_succ s fs k hk
  refine ⟨fun hlt => ?_, fun heq => ?_, fun hgt => ?_⟩
  · have h0 := UpdateFrames_before_first s fs hd k (le_of_lt hlt)
    have h1 := UpdateFrames_before_first s fs hd (k + 1) hlt
    exact ⟨List.not_of_lt_findIdx hlt, h1.1.trans h0.1.symm, h0.2, h1.2⟩
  · have h0 := UpdateFrames_before_first s fs hd k (le_of_eq heq)
    have hex : Frame.readsExact fs[k] = true := by
      have hw : fs.findIdx Frame.readsExact < fs.length := by
        have : k = fs.findIdx Frame.readsExact := heq
        omega
      have h := readsExact_at_first fs hw
      have hkf : fs.findIdx Frame.readsExact = k := heq.symm
      simpa [hkf] using h
    have hpre : ∀ g ∈ fs.take k, Frame.readsExact g = false := by
      intro g hg
      obtain ⟨j, hj, hgj⟩ := List.getElem_of_mem hg
      have hjk : j < k := by
        have := List.length_take_le k fs
        omega
      have hjf : j < fs.findIdx Frame.readsExact := by
        have : k = fs.findIdx Frame.readsExact := heq
        omega
      have hnot := List.not_of_lt_findIdx hjf
      rw [← hgj, List.getElem_take]
      exact hnot
    have h1 := UpdateFrame_of_readsExact (UpdateFrames s (fs.take k)) fs[k] hex h0.2
    refine ⟨hex, hpre, h0.1, h0.2, ?_, UpdateFrames_m_NewTiming s _, ?_⟩
    · show (UpdateFrames s (fs.take (k + 1))).g_Playing.m_Timing = _
      rw [hstep]; exact h1.1
    · show (UpdateFrames s (fs.take (k + 1))).g_Playing.m_TimingDelayed = _
      rw [hstep]; exact h1.2
  · have h0 := UpdateFrames_after_first s fs hd k (le_of_lt hk) hgt
    have h1 := UpdateFrame_of_not_delayed (UpdateFrames s (fs.take k)) fs[k] h0
    refine ⟨?_, h0, ?_⟩
    · show (UpdateFrames s (fs.take (k + 1))).g_Playing.m_Timing = _
      rw [hstep]; exact h1.1
    · show (UpdateFrames s (fs.take (k + 1))).g_Playing.m_TimingDelayed = _
      rw [hstep]; exact h1.2

/-- C1 at a sample: an approximate frame, then two exact ones; the swap is made
by frame 1, the first that reads an exact position. -/
theorem timing_swapped_once_at_first_exact_read_witness :
    sampleGlobals.g_Playing.m_TimingDelayed = true ∧
    1 < [approximateFrame, exactFrame, exactFrame].length ∧
    1 = [approximateFrame, exactFrame, exactFrame].findIdx Frame.readsExact ∧
    (UpdateFrames sampleGlobals
        ([approximateFrame, exactFrame, exactFrame].take 1)).g_Playing.m_Timing
      = sampleGlobals.g_Playing.m_Timing ∧
    (UpdateFrames sampleGlobals
        ([approximateFrame, exactFrame, exactFrame].take 1)).g_Playing.m_TimingDelayed
      = true ∧
    (UpdateFrames sampleGlobals
        ([approximateFrame, exactFrame, exactFrame].take (1 + 1))).g_Playing.m_Timing
      = (UpdateFrames sampleGlobals
        ([approximateFrame, exactFrame, exactFrame].take 1)).g_Playing.m_NewTiming ∧
    (UpdateFrames sampleGlobals
        ([approximateFrame, exactFrame, exactFrame].take (1 + 1))).g_Playing.m_NewTiming
      = sampleGlobals.g_Playing.m_NewTiming ∧
    (UpdateFrames sampleGlobals
        ([approximateFrame, exactFrame, exactFrame].take (1 + 1))).g_Playing.m_TimingDelayed
      = false :=
  ⟨rfl, by decide, by decide,
    ((timing_swapped_once_at_first_exact_read sampleGlobals
      [approximateFrame, exactFrame, exactFrame] rfl 1 (by decide)).2.1 (by decide)).2.2⟩

/-! ## Extrapolation while the new sound is starting -/

/-- The loop-length correction writes `length_sec` only. -/
theorem correctLength_fields (t : TimingData) (ToPlay : MusicToPlay) :
    (correctLength t ToPlay).file = ToPlay.file ∧
      (correctLength t ToPlay).timing_file = ToPlay.timing_file ∧
      (correctLength t ToPlay).HasTiming = ToPlay.HasTiming ∧
      (correctLength t ToPlay).force_loop = ToPlay.force_loop ∧
      (correctLength t ToPlay).start_sec = ToPlay.start_sec ∧
      (correctLength t ToPlay).fade_len = ToPlay.fade_len := by
  unfold correctLength
  split_ifs <;> exact ⟨rfl, rfl, rfl, rfl, rfl, rfl⟩

/-- What `StartPlayingQueuedMusic` leaves in the slot. -/
theorem StartPlayingQueuedMusic_fields (when : RageTimer) (ToPlay : MusicToPlay)
    (Playing : MusicPlaying) :
    (StartPlayingQueuedMusic when ToPlay Playing).m_Timing = Playing.m_Timing ∧
      (StartPlayingQueuedMusic when ToPlay Playing).m_NewTiming = Playing.m_NewTiming ∧
      (StartPlayingQueuedMusic when ToPlay Playing).m_TimingDelayed = true ∧
      (StartPlayingQueuedMusic when ToPlay Playing).m_HasTiming = ToPlay.HasTiming ∧
      (StartPlayingQueuedMusic when ToPlay Playing).m_Music.IsPlaying = true ∧
      (StartPlayingQueuedMusic when ToPlay Playing).m_Music.GetLoadedFilePath = ToPlay.file ∧
      (StartPlayingQueuedMusic when ToPlay Playing).m_Music.m_StartTime = when := by
  unfold StartPlayingQueuedMusic RageSound.IsPlaying RageSound.GetLoadedFilePath
    RageSound.StartPlaying RageSound.Load
  dsimp only
  refine ⟨rfl, rfl, rfl, rfl, rfl, ?_, rfl⟩
  split_ifs <;> rfl

/-- The slot `StartQueuedMusic` commits. -/
theorem StartQueuedMusic_g_Playing (env : Env) (ToPlay : MusicToPlay) (s : Globals)
    (hfile : ToPlay.file ≠ "") :
    (StartQueuedMusic env ToPlay s).2.g_Playing.m_Timing = s.g_Playing.m_Timing ∧
      (StartQueuedMusic env ToPlay s).2.g_Playing.m_TimingDelayed = true ∧
      (StartQueuedMusic env ToPlay s).2.g_Playing.m_HasTiming
        = (StartQueuedMusic env ToPlay s).1.HasTiming ∧
      (StartQueuedMusic env ToPlay s).2.g_Playing.m_Music.IsPlaying = true ∧
      (StartQueuedMusic env ToPlay s).2.g_Playing.m_Music.GetLoadedFilePath = ToPlay.file ∧
      (StartQueuedMusic env ToPlay s).2.GAMESTATE = s.GAMESTATE ∧
      (StartQueuedMusic env ToPlay s).2.g_MusicToPlay = s.g_MusicToPlay ∧
      (StartQueuedMusic env ToPlay s).2.g_UpdatingTimer = s.g_UpdatingTimer := by
  unfold StartQueuedMusic
  rw [if_neg hfile]
  unfold commitQueuedMusic buildQueuedMusic
  dsimp only
  refine ⟨?_, ?_, ?_, ?_, ?_, rfl, rfl, rfl⟩
  · rw [(StartPlayingQueuedMusic_fields _ _ _).1]
    split_ifs <;> rfl
  · exact (StartPlayingQueuedMusic_fields _ _ _).2.2.1
  · exact (StartPlayingQueuedMusic_fields _ _ _).2.2.2.1
  · exact (StartPlayingQueuedMusic_fields _ _ _).2.2.2.2.1
  · rw [(StartPlayingQueuedMusic_fields _ _ _).2.2.2.2.2.1]
    exact (correctLength_fields _ _).1

/-- Frames none of which reads an exact position leave the timing of the slot
and its flag as they were. -/
theorem UpdateFrames_of_not_readsExact (s : Globals) (fs : List Frame)
    (hfs : ∀ g ∈ fs, Frame.readsExact g = false) :
    (UpdateFrames s fs).g_Playing.m_Timing = s.g_Playing.m_Timing ∧
      (UpdateFrames s fs).g_Playing.m_TimingDelayed = s.g_Playing.m_TimingDelayed := by
  induction fs generalizing s with
  | nil => exact ⟨rfl, rfl⟩
  | cons f fs ih =>
    have hf := UpdateFrame_of_not_readsExact s f (hfs f (List.mem_cons_self _ _))
    have h := ih (UpdateFrame s f) (fun g hg => hfs g (List.mem_cons_of_mem _ hg))
    simp only [UpdateFrames, List.foldl_cons] at h ⊢
    exact ⟨h.1.trans hf.1, h.2.trans hf.2⟩

/-- What a frame publishes, and what it leaves alone, when the position of the
playing sound is approximate. -/
theorem UpdateFrame_of_readsApproximate (s : Globals) (f : Frame)
    (hf : f.readsApproximate = true) :
    (UpdateFrame s f).GAMESTATE.m_fMusicSeconds = s.GAMESTATE.m_fMusicSeconds + f.fDeltaTime ∧
      (UpdateFrame s f).GAMESTATE.m_fSongBeat
        = s.g_Playing.m_Timing.GetBeatFromElapsedTime
            (s.GAMESTATE.m_fMusicSeconds + f.fDeltaTime) ∧
      (UpdateFrame s f).g_Playing.m_Timing = s.g_Playing.m_Timing ∧
      (UpdateFrame s f).g_Playing.m_NewTiming = s.g_Playing.m_NewTiming ∧
      (UpdateFrame s f).g_Playing.m_TimingDelayed = s.g_Playing.m_TimingDelayed := by
  unfold Frame.readsApproximate at hf
  unfold UpdateFrame Update setPlaying HandleSongTimer RageSound.IsPlaying
    GameState.UpdateSongPosition
  dsimp only
  cases h1 : f.g_UpdatingTimer <;> cases h2 : f.IsPlaying <;> cases h3 : f.approximate <;>
    simp_all

/-- What a frame publishes, and what it leaves alone, when the song timer is on
and no sound is playing. -/
theorem UpdateFrame_of_silent (s : Globals) (f : Frame)
    (ht : f.g_UpdatingTimer = true) (hp : f.IsPlaying = false) :
    (UpdateFrame s f).GAMESTATE.m_fMusicSeconds = s.GAMESTATE.m_fMusicSeconds + f.fDeltaTime ∧
      (UpdateFrame s f).g_Playing.m_Timing = s.g_Playing.m_Timing := by
  unfold UpdateFrame Update setPlaying HandleSongTimer RageSound.IsPlaying
    GameState.UpdateSongPosition
  simp [ht, hp]

/-- What a frame publishes when it reads an exact position. -/
theorem UpdateFrame_seconds_of_readsExact (s : Globals) (f : Frame)
    (hf : f.readsExact = true) :
    (UpdateFrame s f).GAMESTATE.m_fMusicSeconds = f.fSeconds := by
  unfold Frame.readsExact at hf
  unfold UpdateFrame Update setPlaying HandleSongTimer RageSound.IsPlaying
    GameState.UpdateSongPosition
  dsimp only
  cases h1 : f.g_UpdatingTimer <;> cases h2 : f.IsPlaying <;> cases h3 : f.approximate <;>
    simp_all

/-- On a slot whose flag is clear no sequence of frames writes the timing or
sets the flag. -/
theorem UpdateFrames_of_not_delayed (s : Globals) (fs : List Frame)
    (hd : s.g_Playing.m_TimingDelayed = false) :
    (UpdateFrames s fs).g_Playing.m_Timing = s.g_Playing.m_Timing ∧
      (UpdateFrames s fs).g_Playing.m_TimingDelayed = false := by
  induction fs generalizing s with
  | nil => exact ⟨rfl, hd⟩
  | cons f fs ih =>
    have hf := UpdateFrame_of_not_delayed s f hd
    have h := ih (UpdateFrame s f) hf.2
    simp only [UpdateFrames, List.foldl_cons] at h ⊢
    exact ⟨h.1.trans hf.1, h.2⟩

/-- Once a frame has read an exact position on a delayed slot, the confirmed
timing is the one that was pending and the flag is clear. -/
theorem UpdateFrames_of_exists_readsExact (s : Globals) (fs : List Frame)
    (hd : s.g_Playing.m_TimingDelayed = true)
    (hfs : ∃ g ∈ fs, Frame.readsExact g = true) :
    (UpdateFrames s fs).g_Playing.m_Timing = s.g_Playing.m_NewTiming ∧
      (UpdateFrames s fs).g_Playing.m_TimingDelayed = false := by
  induction fs generalizing s with
  | nil =>
    obtain ⟨g, hg, _⟩ := hfs
    exact absurd hg (List.not_mem_nil g)
  | cons f fs ih =>
    cases hf : Frame.readsExact f
    · have hstep := UpdateFrame_of_not_readsExact s f hf
      have hrest : ∃ g ∈ fs, Frame.readsExact g = true := by
        obtain ⟨g, hg, hgx⟩ := hfs
        rcases List.mem_cons.mp hg with hgf | hgfs
        · rw [hgf, hf] at hgx
          exact absurd hgx (by decide)
        · exact ⟨g, hgfs, hgx⟩
      have h := ih (UpdateFrame s f) (hstep.2.trans hd) hrest
      simp only [UpdateFrames, List.foldl_cons] at h ⊢
      rw [UpdateFrame_m_NewTiming] at h
      exact h
    · have hstep := UpdateFrame_of_readsExact s f hf hd
      have h := UpdateFrames_of_not_delayed (UpdateFrame s f) fs hstep.2
      simp only [UpdateFrames, List.foldl_cons] at h ⊢
      exact ⟨h.1.trans hstep.1, h.2⟩

/-- With a file in the request, `StartQueuedMusic` commits the slot it built. -/
theorem StartQueuedMusic_eq_commit (env : Env) (ToPlay : MusicToPlay) (s : Globals)
    (hfile : ToPlay.file ≠ "") :
    StartQueuedMusic env ToPlay s
      = ((buildQueuedMusic env ToPlay s).1,
          commitQueuedMusic (buildQueuedMusic env ToPlay s).2 s) := by
  unfold StartQueuedMusic
  rw [if_neg hfile]

/-- C2, as the code has it: let `StartQueuedMusic` build a slot for a request (its
file is not empty) over the globals `s` and commit it, at once or after other
threads have run, and let any frames follow.  A further `Update` with the song
timer on, the sound playing and the position approximate publishes the sum of
the previously published seconds and the delta, with the beat that the
confirmed `m_Timing` of the slot gives at that call, and leaves `m_Timing`,
`m_NewTiming` and `m_TimingDelayed` as they were.  As long as no frame has read
an exact position, that `m_Timing` is the old timing, the one the new slot
copied from the slot that was current when it was built, and the slot is still
delayed; once a frame has read an exact position, it is the timing that was
pending in `m_NewTiming`. -/
theorem approximate_frame_uses_confirmed_timing (env : Env) (ToPlay : MusicToPlay)
    (s atCommit : Globals) (hfile : ToPlay.file ≠ "") (fs : List Frame)
    (f : Frame) (hf : f.readsApproximate = true) :
    let NewMusic := (buildQueuedMusic env ToPlay s).2
    let committed := commitQueuedMusic NewMusic atCommit
    let before := UpdateFrames committed fs
    let after := UpdateFrame before f
    (StartQueuedMusic env ToPlay s).2 = commitQueuedMusic NewMusic s ∧
    committed.g_Playing.m_Timing = s.g_Playing.m_Timing ∧
    committed.g_Playing.m_TimingDelayed = true ∧
    after.GAMESTATE.m_fMusicSeconds = before.GAMESTATE.m_fMusicSeconds + f.fDeltaTime ∧
    after.GAMESTATE.m_fSongBeat
      = before.g_Playing.m_Timing.GetBeatFromElapsedTime
          (before.GAMESTATE.m_fMusicSeconds + f.fDeltaTime) ∧
    after.g_Playing.m_Timing = before.g_Playing.m_Timing ∧
    after.g_Playing.m_NewTiming = before.g_Playing.m_NewTiming ∧
    after.g_Playing.m_TimingDelayed = before.g_Playing.m_TimingDelayed ∧
    ((∀ g ∈ fs, Frame.readsExact g = false) →
      before.g_Playing.m_Timing = s.g_Playing.m_Timing ∧
      before.g_Playing.m_TimingDelayed = true ∧
      after.GAMESTATE.m_fSongBeat
        = s.g_Playing.m_Timing.GetBeatFromElapsedTime
            (before.GAMESTATE.m_fMusicSeconds + f.fDeltaTime)) ∧
    ((∃ g ∈ fs, Frame.readsExact g = true) →
      before.g_Playing.m_Timing = NewMusic.m_NewTiming ∧
      before.g_Playing.m_TimingDelayed = false ∧
      after.GAMESTATE.m_fSongBeat
        = NewMusic.m_NewTiming.GetBeatFromElapsedTime
            (before.GAMESTATE.m_fMusicSeconds + f.fDeltaTime)) := by
  intro NewMusic committed before after
  have hsq := StartQueuedMusic_eq_commit env ToPlay s hfile
  have hc := StartQueuedMusic_g_Playing env ToPlay s hfile
  rw [hsq] at hc
  have hT : committed.g_Playing.m_Timing = s.g_Playing.m_Timing := hc.1
  have hD : committed.g_Playing.m_TimingDelayed = true := hc.2.1
  have ha := UpdateFrame_of_readsApproximate before f hf
  refine ⟨by rw [hsq], hT, hD, ha.1, ha.2.1, ha.2.2.1, ha.2.2.2.1, ha.2.2.2.2,
    fun hfs => ?_, fun hfs => ?_⟩
  · have hb := UpdateFrames_of_not_readsExact committed fs hfs
    have hold : before.g_Playing.m_Timing = s.g_Playing.m_Timing := hb.1.trans hT
    refine ⟨hold, hb.2.trans hD, ?_⟩
    rw [← hold]; exact ha.2.1
  · have hb := UpdateFrames_of_exists_readsExact committed fs hD hfs
    have hnew : before.g_Playing.m_Timing = NewMusic.m_NewTiming := hb.1
    refine ⟨hnew, hb.2, ?_⟩
    rw [← hnew]; exact ha.2.1

/-- C2 at a sample: `b.ogg` is started over the sample state, an approximate and
a silent frame pass, and one more approximate frame is taken; the beat comes
from the timing of the sample state. -/
theorem approximate_frame_uses_confirmed_timing_witness :
    sampleRequest.file ≠ "" ∧ approximateFrame.readsApproximate = true ∧
    (∀ g ∈ [approximateFrame, silentFrame], Frame.readsExact g = false) ∧
    (UpdateFrame
        (UpdateFrames
          (commitQueuedMusic (buildQueuedMusic sampleEnv sampleRequest sampleGlobals).2
            sampleGlobals)
          [approximateFrame, silentFrame]) approximateFrame).GAMESTATE.m_fSongBeat
      = sampleGlobals.g_Playing.m_Timing.GetBeatFromElapsedTime
          ((UpdateFrames
              (commitQueuedMusic (buildQueuedMusic sampleEnv sampleRequest sampleGlobals).2
                sampleGlobals)
              [approximateFrame, silentFrame]).GAMESTATE.m_fMusicSeconds
            + approximateFrame.fDeltaTime) :=
  ⟨by decide, rfl, by intro g hg; simp at hg; rcases hg with rfl | rfl <;> rfl,
    ((approximate_frame_uses_confirmed_timing sampleEnv sampleRequest sampleGlobals
      sampleGlobals (by decide) [approximateFrame, silentFrame] approximateFrame
      rfl).2.2.2.2.2.2.2.2.1
      (by intro g hg; simp at hg; rcases hg with rfl | rfl <;> rfl)).2.2⟩

/-- C2 fails as stated.  In the state reached from the initial one by turning the
song timer on, `PlayMusic("b.ogg")` and a pass of the worker, the slot committed
by `StartQueuedMusic` keeps the old 120 BPM timing and holds the 60 BPM timing of
`b.sm` as pending.  A frame reads the exact position 0; in the next frame the
song timer is on, the sound is playing and its position is approximate again,
and `Update` publishes 1/2 second with beat 1/2, the beat of the timing that was
pending, where the old timing gives beat 1. -/
theorem approximate_frame_uses_confirmed_timing_counterexample :
    startedGlobals
      = (StartQueuedMusic sampleEnv (requestOf sampleEnv false "b.ogg" "" false 0 (-1) 0)
          (MusicThread_take
            (PlayMusic sampleEnv false "b.ogg" "" false 0 (-1) 0
              (HandleSongTimer true (Globals.init ⟨10, 20, 100⟩)))).2).2 ∧
    startedGlobals.g_Playing.m_Timing
      = (HandleSongTimer true (Globals.init ⟨10, 20, 100⟩)).g_Playing.m_Timing ∧
    approximateFrame.readsApproximate = true ∧
    (UpdateFrames startedGlobals [exactFrame]).GAMESTATE.m_fMusicSeconds = 0 ∧
    (UpdateFrames startedGlobals [exactFrame, approximateFrame]).GAMESTATE.m_fMusicSeconds
      = 1 / 2 ∧
    (UpdateFrames startedGlobals [exactFrame, approximateFrame]).GAMESTATE.m_fSongBeat
      = 1 / 2 ∧
    (HandleSongTimer true (Globals.init ⟨10, 20, 100⟩)).g_Playing.m_Timing.GetBeatFromElapsedTime
        ((UpdateFrames startedGlobals [exactFrame]).GAMESTATE.m_fMusicSeconds
          + approximateFrame.fDeltaTime) = 1 ∧
    (UpdateFrames startedGlobals [exactFrame, approximateFrame]).GAMESTATE.m_fSongBeat
      ≠ (HandleSongTimer true
          (Globals.init ⟨10, 20, 100⟩)).g_Playing.m_Timing.GetBeatFromElapsedTime
            ((UpdateFrames startedGlobals [exactFrame]).GAMESTATE.m_fMusicSeconds
              + approximateFrame.fDeltaTime) := by
  have hd : startedGlobals.g_Playing.m_TimingDelayed = true := rfl
  have hN : startedGlobals.g_Playing.m_NewTiming = ⟨[⟨0, 60⟩], 0⟩ := rfl
  have h1 : (UpdateFrames startedGlobals [exactFrame]).GAMESTATE.m_fMusicSeconds = 0 := by
    show (UpdateFrame startedGlobals exactFrame).GAMESTATE.m_fMusicSeconds = 0
    rw [UpdateFrame_seconds_of_readsExact _ exactFrame rfl]
    rfl
  have hx := UpdateFrame_of_readsExact startedGlobals exactFrame rfl hd
  have ha := UpdateFrame_of_readsApproximate (UpdateFrame startedGlobals exactFrame)
    approximateFrame rfl
  have h1' : (UpdateFrame startedGlobals exactFrame).GAMESTATE.m_fMusicSeconds = 0 := h1
  have h2 : (UpdateFrames startedGlobals
      [exactFrame, approximateFrame]).GAMESTATE.m_fMusicSeconds = 1 / 2 := by
    show (UpdateFrame (UpdateFrame startedGlobals exactFrame)
      approximateFrame).GAMESTATE.m_fMusicSeconds = 1 / 2
    rw [ha.1, h1']
    norm_num [approximateFrame]
  have h3 : (UpdateFrames startedGlobals
      [exactFrame, approximateFrame]).GAMESTATE.m_fSongBeat = 1 / 2 := by
    show (UpdateFrame (UpdateFrame startedGlobals exactFrame)
      approximateFrame).GAMESTATE.m_fSongBeat = 1 / 2
    rw [ha.2.1, hx.1, hN, h1']
    norm_num [approximateFrame, TimingData.GetBeatFromElapsedTime, beatOfSegments]
  have h4 : (HandleSongTimer true
      (Globals.init ⟨10, 20, 100⟩)).g_Playing.m_Timing.GetBeatFromElapsedTime
        ((UpdateFrames startedGlobals [exactFrame]).GAMESTATE.m_fMusicSeconds
          + approximateFrame.fDeltaTime) = 1 := by
    rw [h1]
    norm_num [approximateFrame, HandleSongTimer, Globals.init, MusicPlaying.new,
      TimingData.new, TimingData.AddBPMSegment, TimingData.GetBeatFromElapsedTime,
      beatOfSegments]
  refine ⟨rfl, rfl, rfl, h1, h2, h3, h4, ?_⟩
  rw [h3, h4]
  norm_num

/-! ## Beat fractions -/

theorem fmodfp_one (x : ℚ) : fmodfp x 1 = Int.fract x := by
  unfold fmodfp Int.fract
  simp

theorem truncf_of_nonneg (x : ℚ) (hx : 0 ≤ x) : truncf x = (⌊x⌋ : ℚ) := by
  unfold truncf
  rw [if_pos hx]

/-- The difference added to the end beat lies in `[0,1)` and moves the end beat
onto the fraction of the start beat. -/
theorem fBeatDifference_spec (fStartBeat fEndBeat : ℚ) :
    0 ≤ fBeatDifference fStartBeat fEndBeat ∧ fBeatDifference fStartBeat fEndBeat < 1 ∧
      fmodfp (fEndBeat + fBeatDifference fStartBeat fEndBeat) 1 = fmodfp fStartBeat 1 := by
  have ha0 := Int.fract_nonneg fStartBeat
  have ha1 := Int.fract_lt_one fStartBeat
  have hb0 := Int.fract_nonneg fEndBeat
  have hb1 := Int.fract_lt_one fEndBeat
  have hb : fEndBeat = (⌊fEndBeat⌋ : ℚ) + Int.fract fEndBeat := (Int.floor_add_fract fEndBeat).symm
  unfold fBeatDifference
  simp only [fmodfp_one]
  split_ifs with h
  · refine ⟨by linarith, by linarith, ?_⟩
    have : fEndBeat + (Int.fract fStartBeat - Int.fract fEndBeat + 1)
        = ((⌊fEndBeat⌋ + 1 : ℤ) : ℚ) + Int.fract fStartBeat := by
      push_cast; linarith
    rw [this, Int.fract_int_add, Int.fract_fract]
  · refine ⟨by linarith, by linarith, ?_⟩
    have : fEndBeat + (Int.fract fStartBeat - Int.fract fEndBeat)
        = ((⌊fEndBeat⌋ : ℤ) : ℚ) + Int.fract fStartBeat := by
      linarith
    rw [this, Int.fract_int_add, Int.fract_fract]

/-- The beat to start on is the first beat from the current beat on that has the
fraction of the start beat. -/
theorem fCurBeatToStartOn_spec (fCurBeat fStartBeat : ℚ) (hcur : 0 ≤ fCurBeat) :
    fCurBeat ≤ fCurBeatToStartOn fCurBeat fStartBeat ∧
      fCurBeatToStartOn fCurBeat fStartBeat < fCurBeat + 1 ∧
      fmodfp (fCurBeatToStartOn fCurBeat fStartBeat) 1 = fmodfp fStartBeat 1 ∧
      ∀ x : ℚ, fCurBeat ≤ x → fmodfp x 1 = fmodfp fStartBeat 1 →
        fCurBeatToStartOn fCurBeat fStartBeat ≤ x := by
  have ha0 := Int.fract_nonneg fStartBeat
  have ha1 := Int.fract_lt_one fStartBeat
  have hc0 := Int.fract_nonneg fCurBeat
  have hc1 := Int.fract_lt_one fCurBeat
  have hc : fCurBeat = (⌊fCurBeat⌋ : ℚ) + Int.fract fCurBeat := (Int.floor_add_fract fCurBeat).symm
  have key : ∀ b : ℚ, b < fCurBeat + 1 → Int.fract b = Int.fract fStartBeat →
      ∀ x : ℚ, fCurBeat ≤ x → Int.fract x = Int.fract fStartBeat → b ≤ x := by
    intro b hb hfb x hx hfx
    by_contra hlt
    push_neg at hlt
    have hfl : (⌊x⌋ : ℚ) < ⌊b⌋ := by
      have h1 := Int.floor_add_fract x
      have h2 := Int.floor_add_fract b
      rw [hfx] at h1
      rw [hfb] at h2
      linarith
    have hfz : ⌊x⌋ + 1 ≤ ⌊b⌋ := by exact_mod_cast hfl
    have hfq : (⌊x⌋ : ℚ) + 1 ≤ ⌊b⌋ := by exact_mod_cast hfz
    have h1 := Int.floor_add_fract x
    have h2 := Int.floor_add_fract b
    rw [hfx] at h1
    rw [hfb] at h2
    linarith
  unfold fCurBeatToStartOn
  simp only [fmodfp_one, truncf_of_nonneg fCurBeat hcur]
  split_ifs with h
  · have hfr : Int.fract ((⌊fCurBeat⌋ : ℚ) + (Int.fract fStartBeat + 1)) = Int.fract fStartBeat := by
      have : (⌊fCurBeat⌋ : ℚ) + (Int.fract fStartBeat + 1)
          = ((⌊fCurBeat⌋ + 1 : ℤ) : ℚ) + Int.fract fStartBeat := by
        push_cast; ring
      rw [this, Int.fract_int_add, Int.fract_fract]
    have hub : (⌊fCurBeat⌋ : ℚ) + (Int.fract fStartBeat + 1) < fCurBeat + 1 := by linarith
    exact ⟨by linarith, hub, hfr, key _ hub hfr⟩
  · have hfr : Int.fract ((⌊fCurBeat⌋ : ℚ) + Int.fract fStartBeat) = Int.fract fStartBeat := by
      rw [Int.fract_int_add, Int.fract_fract]
    have hub : (⌊fCurBeat⌋ : ℚ) + Int.fract fStartBeat < fCurBeat + 1 := by linarith
    exact ⟨by linarith, hub, hfr, key _ hub hfr⟩

/-! ## What `StartQueuedMusic` decides -/

/-- The request and the pending timing that `StartQueuedMusic` ends with, and
the start time it gives the sound. -/
theorem StartQueuedMusic_result (env : Env) (ToPlay : MusicToPlay) (s : Globals)
    (hfile : ToPlay.file ≠ "") :
    (StartQueuedMusic env ToPlay s).1
        = correctLength (findTiming env ToPlay.timing_file MusicPlaying.new.m_NewTiming).2
            { ToPlay with
              HasTiming := (findTiming env ToPlay.timing_file MusicPlaying.new.m_NewTiming).1 } ∧
      (StartQueuedMusic env ToPlay s).1.HasTiming
        = (findTiming env ToPlay.timing_file MusicPlaying.new.m_NewTiming).1 ∧
      (StartQueuedMusic env ToPlay s).2.g_Playing.m_NewTiming
        = (if (findTiming env ToPlay.timing_file MusicPlaying.new.m_NewTiming).1 = true then
            (findTiming env ToPlay.timing_file MusicPlaying.new.m_NewTiming).2
          else
            untimedOffset s.GAMESTATE.m_fSongBeat
              (findTiming env ToPlay.timing_file MusicPlaying.new.m_NewTiming).2) ∧
      (StartQueuedMusic env ToPlay s).2.g_Playing.m_Music.m_StartTime
        = (if StartImmediately
              (findTiming env ToPlay.timing_file MusicPlaying.new.m_NewTiming).1
              s.g_Playing.m_HasTiming s.g_UpdatingTimer = true then RageTimer.zero
          else
            alignedStart env s
              (findTiming env ToPlay.timing_file MusicPlaying.new.m_NewTiming).2
              ToPlay.start_sec) := by
  unfold StartQueuedMusic
  rw [if_neg hfile]
  unfold commitQueuedMusic buildQueuedMusic
  dsimp only
  have hH := (correctLength_fields
    (findTiming env ToPlay.timing_file MusicPlaying.new.m_NewTiming).2
    { ToPlay with
      HasTiming := (findTiming env ToPlay.timing_file MusicPlaying.new.m_NewTiming).1 }).2.2.1
  have hS := (correctLength_fields
    (findTiming env ToPlay.timing_file MusicPlaying.new.m_NewTiming).2
    { ToPlay with
      HasTiming := (findTiming env ToPlay.timing_file MusicPlaying.new.m_NewTiming).1 }).2.2.2.2.1
  dsimp only at hH hS
  refine ⟨rfl, hH, ?_, ?_⟩
  · rw [(StartPlayingQueuedMusic_fields _ _ _).2.1, hH]
    cases (findTiming env ToPlay.timing_file MusicPlaying.new.m_NewTiming).1 <;> rfl
  · rw [(StartPlayingQueuedMusic_fields _ _ _).2.2.2.2.2.2, hH, hS]
    cases hft : (findTiming env ToPlay.timing_file MusicPlaying.new.m_NewTiming).1
    · simp [StartImmediately]
    · cases h1 : s.g_Playing.m_HasTiming <;> cases h2 : s.g_UpdatingTimer <;>
        simp [StartImmediately]

/-- The timing search when the file is there and can be read. -/
theorem findTiming_of_read (env : Env) (timing_file : String) (t : TimingData) (msd : MsdFile)
    (hIs : env.IsAFile timing_file = true) (hread : env.ReadFile timing_file = some msd) :
    findTiming env timing_file t = (true, env.LoadTimingFromSMFile msd t) := by
  unfold findTiming
  rw [if_pos hIs, hread]

/-- The timing search when the file is missing or cannot be read. -/
theorem findTiming_of_missing (env : Env) (timing_file : String) (t : TimingData)
    (h : env.IsAFile timing_file = false ∨ env.ReadFile timing_file = none) :
    findTiming env timing_file t = (false, t) := by
  unfold findTiming
  rcases h with h | h
  · simp [h]
  · rw [h]; split_ifs <;> rfl

/-! ## Loop length and aligned start -/

/-- C3: loop-length correction.  For every start beat and end beat the amount
`StartQueuedMusic` adds to the end beat lies in `[0,1)` and the corrected end
beat has the fractional part of the start beat; fractions 0.25 and 0.90 give an
added 0.35 and a corrected fraction 0.25.  When the timing file was read,
`force_loop` is set and `length_sec` is not -1, the new `length_sec` is the
elapsed time of the corrected end beat under the loaded timing, minus
`start_sec`. -/
theorem loop_length_correction (env : Env) (ToPlay : MusicToPlay) (s : Globals)
    (msd : MsdFile) (hfile : ToPlay.file ≠ "")
    (hIs : env.IsAFile ToPlay.timing_file = true)
    (hread : env.ReadFile ToPlay.timing_file = some msd)
    (hloop : ToPlay.force_loop = true) (hlen : ToPlay.length_sec ≠ -1) :
    let m_NewTiming := env.LoadTimingFromSMFile msd MusicPlaying.new.m_NewTiming
    let fStartBeat := m_NewTiming.GetBeatFromElapsedTime ToPlay.start_sec
    let fEndBeat := m_NewTiming.GetBeatFromElapsedTime (ToPlay.start_sec + ToPlay.length_sec)
    (∀ a b : ℚ, 0 ≤ fBeatDifference a b ∧ fBeatDifference a b < 1 ∧
      fmodfp (b + fBeatDifference a b) 1 = fmodfp a 1) ∧
    (∀ a b : ℚ, fmodfp a 1 = 1 / 4 → fmodfp b 1 = 9 / 10 →
      fBeatDifference a b = 7 / 20 ∧ fmodfp (b + fBeatDifference a b) 1 = 1 / 4) ∧
    (StartQueuedMusic env ToPlay s).1.length_sec
      = m_NewTiming.GetElapsedTimeFromBeat (fEndBeat + fBeatDifference fStartBeat fEndBeat)
          - ToPlay.start_sec ∧
    (StartQueuedMusic env ToPlay s).2.g_Playing.m_NewTiming = m_NewTiming := by
  intro m_NewTiming fStartBeat fEndBeat
  have hfound := findTiming_of_read env ToPlay.timing_file MusicPlaying.new.m_NewTiming msd
    hIs hread
  have hres := StartQueuedMusic_result env ToPlay s hfile
  refine ⟨fBeatDifference_spec, fun a b ha hb => ?_, ?_, ?_⟩
  · have h := (fBeatDifference_spec a b).2.2
    rw [ha] at h
    refine ⟨?_, h⟩
    unfold fBeatDifference
    simp only [ha, hb]
    norm_num
  · rw [hres.1, hfound]
    unfold correctLength correctedEndBeat
    simp [hloop, hlen]
  · rw [hres.2.2.1, hfound]
    rfl

/-- C3 at a sample: `b.ogg` looped from 1 second for 3/2 seconds under the 60 BPM
timing of `b.sm`. -/
theorem loop_length_correction_witness :
    sampleRequest.file ≠ "" ∧
    sampleEnv.IsAFile sampleRequest.timing_file = true ∧
    sampleEnv.ReadFile sampleRequest.timing_file = some ⟨[]⟩ ∧
    sampleRequest.force_loop = true ∧ sampleRequest.length_sec ≠ -1 ∧
    (StartQueuedMusic sampleEnv sampleRequest sampleGlobals).1.length_sec
      = (sampleEnv.LoadTimingFromSMFile ⟨[]⟩ MusicPlaying.new.m_NewTiming).GetElapsedTimeFromBeat
          ((sampleEnv.LoadTimingFromSMFile ⟨[]⟩ MusicPlaying.new.m_NewTiming).GetBeatFromElapsedTime
              (sampleRequest.start_sec + sampleRequest.length_sec)
            + fBeatDifference
                ((sampleEnv.LoadTimingFromSMFile ⟨[]⟩
                  MusicPlaying.new.m_NewTiming).GetBeatFromElapsedTime sampleRequest.start_sec)
                ((sampleEnv.LoadTimingFromSMFile ⟨[]⟩
                  MusicPlaying.new.m_NewTiming).GetBeatFromElapsedTime
                    (sampleRequest.start_sec + sampleRequest.length_sec)))
          - sampleRequest.start_sec :=
  ⟨by decide, by decide, by decide, rfl, by norm_num [sampleRequest],
    (loop_length_correction sampleEnv sampleRequest sampleGlobals ⟨[]⟩ (by decide) (by decide)
      (by decide) rfl (by norm_num [sampleRequest])).2.2.1⟩

/-- C4: aligned start.  For every current beat `fCurBeat ≥ 0` and every start
beat, `truncf(fCurBeat)` plus the unwrapped start fraction is at least
`fCurBeat`, less than `fCurBeat + 1`, has the fractional part of the start beat,
and is the least beat with these two properties.  When `StartQueuedMusic` does
not start immediately, the start time of the sound is `m_LastBeatUpdate` plus
the presumed latency plus the elapsed time of that beat under the current
timing minus the current second. -/
theorem aligned_start_beat (env : Env) (ToPlay : MusicToPlay) (s : Globals)
    (msd : MsdFile) (hfile : ToPlay.file ≠ "")
    (hIs : env.IsAFile ToPlay.timing_file = true)
    (hread : env.ReadFile ToPlay.timing_file = some msd)
    (hclock : s.g_Playing.m_HasTiming = true ∨ s.g_UpdatingTimer = true) :
    let m_NewTiming := env.LoadTimingFromSMFile msd MusicPlaying.new.m_NewTiming
    let PresumedLatency := env.GetPlayLatency + 40 / 1000
    let fCurSecond := s.GAMESTATE.m_fMusicSeconds + PresumedLatency
    let fCurBeat := s.g_Playing.m_Timing.GetBeatFromElapsedTime fCurSecond
    let fStartBeat := m_NewTiming.GetBeatFromElapsedTime ToPlay.start_sec
    (∀ c b : ℚ, 0 ≤ c →
      c ≤ fCurBeatToStartOn c b ∧ fCurBeatToStartOn c b < c + 1 ∧
        fmodfp (fCurBeatToStartOn c b) 1 = fmodfp b 1 ∧
        ∀ x : ℚ, c ≤ x → fmodfp x 1 = fmodfp b 1 → fCurBeatToStartOn c b ≤ x) ∧
    (∀ c b : ℚ,
      fCurBeatToStartOn c b
        = truncf c + (if fmodfp b 1 < fmodfp c 1 then fmodfp b 1 + 1 else fmodfp b 1)) ∧
    (StartQueuedMusic env ToPlay s).2.g_Playing.m_Music.m_StartTime
      = s.GAMESTATE.m_LastBeatUpdate + PresumedLatency
          + (s.g_Playing.m_Timing.GetElapsedTimeFromBeat (fCurBeatToStartOn fCurBeat fStartBeat)
              - fCurSecond) := by
  intro m_NewTiming PresumedLatency fCurSecond fCurBeat fStartBeat
  have hfound := findTiming_of_read env ToPlay.timing_file MusicPlaying.new.m_NewTiming msd
    hIs hread
  have hres := StartQueuedMusic_result env ToPlay s hfile
  refine ⟨fun c b hc => fCurBeatToStartOn_spec c b hc, fun c b => rfl, ?_⟩
  rw [hres.2.2.2, hfound]
  have hnot : StartImmediately true s.g_Playing.m_HasTiming s.g_UpdatingTimer = false := by
    rcases hclock with h | h <;> simp [StartImmediately, h]
  simp only [hnot]
  rfl

/-- C4 at a sample: `b.ogg` with the timing of `b.sm` is started while the sample
state has a timed song on the clock. -/
theorem aligned_start_beat_witness :
    sampleRequest.file ≠ "" ∧
    sampleEnv.IsAFile sampleRequest.timing_file = true ∧
    sampleEnv.ReadFile sampleRequest.timing_file = some ⟨[]⟩ ∧
    (sampleGlobals.g_Playing.m_HasTiming = true ∨ sampleGlobals.g_UpdatingTimer = true) ∧
    (StartQueuedMusic sampleEnv sampleRequest sampleGlobals).2.g_Playing.m_Music.m_StartTime
      = sampleGlobals.GAMESTATE.m_LastBeatUpdate + (sampleEnv.GetPlayLatency + 40 / 1000)
          + (sampleGlobals.g_Playing.m_Timing.GetElapsedTimeFromBeat
                (fCurBeatToStartOn
                  (sampleGlobals.g_Playing.m_Timing.GetBeatFromElapsedTime
                    (sampleGlobals.GAMESTATE.m_fMusicSeconds
                      + (sampleEnv.GetPlayLatency + 40 / 1000)))
                  ((sampleEnv.LoadTimingFromSMFile ⟨[]⟩
                    MusicPlaying.new.m_NewTiming).GetBeatFromElapsedTime
                      sampleRequest.start_sec))
              - (sampleGlobals.GAMESTATE.m_fMusicSeconds
                  + (sampleEnv.GetPlayLatency + 40 / 1000))) :=
  ⟨by decide, by decide, by decide, Or.inl rfl,
    (aligned_start_beat sampleEnv sampleRequest sampleGlobals ⟨[]⟩ (by decide) (by decide)
      (by decide) (Or.inl rfl)).2.2⟩

/-! ## The mailbox -/

theorem length_ne_zero_of_ne_empty (file : String) (h : file ≠ "") : file.length ≠ 0 := by
  intro h0
  apply h
  cases file with
  | mk data =>
    have hd : data = [] := List.length_eq_zero.mp h0
    rw [hd]

/-- A call that gets past the test for the file that is already playing leaves
its request in the mailbox. -/
theorem PlayMusic_of_not_same (env : Env) (indeterminate : Bool) (file timing_file : String)
    (force_loop : Bool) (start_sec length_sec fade_len : ℚ) (s : Globals)
    (h : ¬ (s.g_Playing.m_Music.IsPlaying = true ∧
      CompareNoCase s.g_Playing.m_Music.GetLoadedFilePath file = 0)) :
    (PlayMusic env indeterminate file timing_file force_loop start_sec length_sec
        fade_len s).g_MusicToPlay
        = requestOf env indeterminate file timing_file force_loop start_sec length_sec
            fade_len ∧
      (PlayMusic env indeterminate file timing_file force_loop start_sec length_sec
        fade_len s).g_Playing.m_Music.IsPlaying = false := by
  have hc : (s.g_Playing.m_Music.IsPlaying
      && CompareNoCase s.g_Playing.m_Music.GetLoadedFilePath file == 0) = false := by
    cases hp : s.g_Playing.m_Music.IsPlaying
    · rfl
    · have hne : ¬ CompareNoCase s.g_Playing.m_Music.GetLoadedFilePath file = 0 :=
        fun h0 => h ⟨hp, h0⟩
      simp [hne]
  unfold PlayMusic
  rw [hc]
  exact ⟨rfl, rfl⟩

/-- A call for the file that is already playing changes nothing. -/
theorem PlayMusic_of_same (env : Env) (indeterminate : Bool) (file timing_file : String)
    (force_loop : Bool) (start_sec length_sec fade_len : ℚ) (s : Globals)
    (hp : s.g_Playing.m_Music.IsPlaying = true)
    (hsame : CompareNoCase s.g_Playing.m_Music.GetLoadedFilePath file = 0) :
    PlayMusic env indeterminate file timing_file force_loop start_sec length_sec fade_len s
      = s := by
  unfold PlayMusic
  simp [hp, hsame]

/-- A take from a mailbox that holds a request. -/
theorem MusicThread_take_of_request (s : Globals) (h : s.g_MusicToPlay.file ≠ "") :
    (MusicThread_take s).1 = some s.g_MusicToPlay ∧
      (MusicThread_take s).2.g_MusicToPlay.file = "" ∧
      (MusicThread_take (MusicThread_take s).2).1 = none := by
  unfold MusicThread_take
  rw [if_neg (length_ne_zero_of_ne_empty _ h)]
  refine ⟨rfl, rfl, ?_⟩
  simp

/-- A take from an empty mailbox. -/
theorem MusicThread_take_of_empty (s : Globals) (h : s.g_MusicToPlay.file = "") :
    (MusicThread_take s).1 = none := by
  unfold MusicThread_take
  rw [h]
  rfl

/-- Interleaved steps leave the mailbox alone. -/
theorem runInterleaved_g_MusicToPlay (s : Globals) (steps : List Interleaved) :
    (runInterleaved s steps).g_MusicToPlay = s.g_MusicToPlay := by
  induction steps generalizing s with
  | nil => rfl
  | cons step steps ih =>
    have h := ih (Interleaved.run s step)
    simp only [runInterleaved, List.foldl_cons] at h ⊢
    rw [h]
    cases step with
    | frame f =>
      unfold Interleaved.run UpdateFrame Update setPlaying HandleSongTimer
      dsimp only
      split_ifs <;> rfl
    | timer bOn => rfl
    | commit NewMusic => rfl

/-- C5, as the code has it: `PlayMusic(fileA, ...)` is followed by
`PlayMusic(fileB, ...)` with `fileB` not empty; no take and no other `PlayMusic`
lies between the two calls or between the second call and the next take, while
frames of the game thread and the commit of a start taken earlier may run there.
If the second call does not find `fileB` already playing (the sound of the slot
current at that call playing with a loaded path equal to `fileB` up to case),
the next take copies the request of the second call: its file, loop flag, start,
length and fade are those of the call, and its timing file is the one of the
call, or `SetExtension(fileB, "sm")` when the call gave none; `HasTiming` is
whatever the unassigned field held.  The take empties the mailbox, and every
further take without a new `PlayMusic` finds it empty, so the request of the
first call is never taken. -/
theorem second_request_taken (env : Env) (s : Globals)
    (indA : Bool) (fileA timingA : String) (loopA : Bool) (startA lengthA fadeA : ℚ)
    (indB : Bool) (fileB timingB : String) (loopB : Bool) (startB lengthB fadeB : ℚ)
    (between after : List Interleaved)
    (hB : fileB ≠ "")
    (hnot : ¬ ((runInterleaved (PlayMusic env indA fileA timingA loopA startA lengthA fadeA s)
          between).g_Playing.m_Music.IsPlaying = true ∧
      CompareNoCase (runInterleaved (PlayMusic env indA fileA timingA loopA startA lengthA fadeA s)
          between).g_Playing.m_Music.GetLoadedFilePath fileB = 0)) :
    let s1 := runInterleaved (PlayMusic env indA fileA timingA loopA startA lengthA fadeA s)
      between
    let s2 := runInterleaved (PlayMusic env indB fileB timingB loopB startB lengthB fadeB s1)
      after
    let request := requestOf env indB fileB timingB loopB startB lengthB fadeB
    (MusicThread_take s2).1 = some request ∧
    request.file = fileB ∧
    request.timing_file = (if timingB = "" then env.SetExtension fileB "sm" else timingB) ∧
    request.force_loop = loopB ∧ request.start_sec = startB ∧
    request.length_sec = lengthB ∧ request.fade_len = fadeB ∧
    (MusicThread_take s2).2.g_MusicToPlay.file = "" ∧
    ∀ later : List Interleaved,
      (MusicThread_take (runInterleaved (MusicThread_take s2).2 later)).1 = none := by
  intro s1 s2 request
  have hreq : s2.g_MusicToPlay = request := by
    show (runInterleaved _ after).g_MusicToPlay = _
    rw [runInterleaved_g_MusicToPlay]
    exact (PlayMusic_of_not_same env indB fileB timingB loopB startB lengthB fadeB s1 hnot).1
  have hfile : s2.g_MusicToPlay.file ≠ "" := by
    rw [hreq]
    exact hB
  have htake := MusicThread_take_of_request s2 hfile
  refine ⟨?_, rfl, rfl, rfl, rfl, rfl, rfl, htake.2.1, fun later => ?_⟩
  · rw [htake.1, hreq]
  · apply MusicThread_take_of_empty
    rw [runInterleaved_g_MusicToPlay]
    exact htake.2.1

/-- C5 at a sample: `a.ogg` is asked for over the initial globals, a silent frame
passes, `b.ogg` is asked for, and the commit of an earlier start comes in before
the take. -/
theorem second_request_taken_witness :
    "b.ogg" ≠ "" ∧
    ¬ ((runInterleaved (PlayMusic sampleEnv false "a.ogg" "" false 0 (-1) 0
          (Globals.init ⟨0, 0, 0⟩))
          [Interleaved.frame silentFrame]).g_Playing.m_Music.IsPlaying = true ∧
      CompareNoCase (runInterleaved (PlayMusic sampleEnv false "a.ogg" "" false 0 (-1) 0
          (Globals.init ⟨0, 0, 0⟩))
          [Interleaved.frame silentFrame]).g_Playing.m_Music.GetLoadedFilePath "b.ogg" = 0) ∧
    (MusicThread_take
        (runInterleaved
          (PlayMusic sampleEnv true "b.ogg" "" true 1 2 0
            (runInterleaved (PlayMusic sampleEnv false "a.ogg" "" false 0 (-1) 0
              (Globals.init ⟨0, 0, 0⟩)) [Interleaved.frame silentFrame]))
          [Interleaved.commit builtSlot])).1
      = some (requestOf sampleEnv true "b.ogg" "" true 1 2 0) :=
  ⟨by decide, by decide,
    (second_request_taken sampleEnv (Globals.init ⟨0, 0, 0⟩) false "a.ogg" "" false 0 (-1) 0
      true "b.ogg" "" true 1 2 0 [Interleaved.frame silentFrame]
      [Interleaved.commit builtSlot] (by decide) (by decide)).1⟩

/-- C5 fails as stated, in three ways.  While `b.ogg` is playing and the mailbox
is empty (the state reached from the initial one by `PlayMusic("b.ogg")` and a
pass of the worker), `PlayMusic("B.OGG")` and then `PlayMusic("b.ogg")` both
return at the test for the file that is already playing, and the next take finds
no request at all.  Where the second call passes that test without a timing
file, the request taken carries the timing file `b.sm`, not the empty one of the
call.  And when the worker has taken a request for `b.ogg` and is still building
its slot, `PlayMusic("a.ogg")`, then the commit of that slot, then
`PlayMusic("b.ogg")`, which returns at the test, leave the request for `a.ogg` in
the mailbox: the next take copies the request of the first call. -/
theorem second_request_taken_counterexample :
    "b.ogg" ≠ "" ∧
    startedGlobals.g_Playing.m_Music.IsPlaying = true ∧
    startedGlobals.g_Playing.m_Music.GetLoadedFilePath = "b.ogg" ∧
    startedGlobals.g_MusicToPlay.file = "" ∧
    (MusicThread_take
        (PlayMusic sampleEnv false "b.ogg" "" false 0 (-1) 0
          (PlayMusic sampleEnv false "B.OGG" "" false 0 (-1) 0 startedGlobals))).1 = none ∧
    ((MusicThread_take
        (PlayMusic sampleEnv false "b.ogg" "" false 0 (-1) 0
          (PlayMusic sampleEnv false "a.ogg" "" false 0 (-1) 0 startedGlobals))).1.map
        (fun request => request.timing_file)) = some "b.sm" ∧
    ((MusicThread_take
        (PlayMusic sampleEnv false "b.ogg" "" false 0 (-1) 0
          (commitQueuedMusic builtSlot
            (PlayMusic sampleEnv false "a.ogg" "" false 0 (-1) 0 takenGlobals)))).1.map
        (fun request => request.file)) = some "a.ogg" := by
  refine ⟨by decide, by decide, by decide, by decide, by decide, by decide, by decide⟩

/-! ## Immediate or aligned start -/

/-- The default timing, one 120 BPM segment at beat 0, runs two beats a second. -/
theorem default_GetElapsedTimeFromBeat (fBeat : ℚ) :
    MusicPlaying.new.m_NewTiming.GetElapsedTimeFromBeat fBeat = fBeat / 2 := by
  simp [MusicPlaying.new, TimingData.new, TimingData.AddBPMSegment,
    TimingData.GetElapsedTimeFromBeat, secondsOfSegments]
  norm_num

/-- The spec's scenario for the default timing: 2.0 seconds are beat 4.0 and beat
4.0 is at 2.0 seconds. -/
theorem default_timing_scenario :
    MusicPlaying.new.m_Timing.GetBeatFromElapsedTime 2 = 4 ∧
      MusicPlaying.new.m_Timing.GetElapsedTimeFromBeat 4 = 2 := by
  constructor
  · simp [MusicPlaying.new, TimingData.new, TimingData.AddBPMSegment,
      TimingData.GetBeatFromElapsedTime, beatOfSegments]
    norm_num
  · simp [MusicPlaying.new, TimingData.new, TimingData.AddBPMSegment,
      TimingData.GetElapsedTimeFromBeat, secondsOfSegments]
    norm_num

/-- With the offset of the untimed case, position zero of the new sound is on
the fraction of the song beat that was peeked at. -/
theorem untimedOffset_lines_up (m_fSongBeat : ℚ) :
    (untimedOffset m_fSongBeat MusicPlaying.new.m_NewTiming).GetBeatFromElapsedTime 0
      = fmodfp m_fSongBeat 1 := by
  have h := default_GetElapsedTimeFromBeat (fmodfp m_fSongBeat 1)
  unfold untimedOffset
  simp only [h]
  simp [MusicPlaying.new, TimingData.new, TimingData.AddBPMSegment,
    TimingData.GetBeatFromElapsedTime, beatOfSegments]
  ring

/-- C8: for a request with a file whose timing file is missing or cannot be
read, `StartQueuedMusic` sets `HasTiming` false, starts immediately, and gives the
pending timing, the default 120 BPM segment, the beat-zero offset that is the
elapsed time of the fraction of the current song beat under that default timing:
`fmodfp(m_fSongBeat,1) / 2`, in `[0, 1/2)`.  The slot is built and committed all
the same: it keeps the old confirmed timing, is delayed, and its sound has the
file loaded and is playing. -/
theorem untimed_start (env : Env) (ToPlay : MusicToPlay) (s : Globals)
    (hfile : ToPlay.file ≠ "")
    (hmiss : env.IsAFile ToPlay.timing_file = false ∨ env.ReadFile ToPlay.timing_file = none) :
    let request := (StartQueuedMusic env ToPlay s).1
    let slot := (StartQueuedMusic env ToPlay s).2.g_Playing
    request.HasTiming = false ∧ slot.m_HasTiming = false ∧
    StartImmediately request.HasTiming s.g_Playing.m_HasTiming s.g_UpdatingTimer = true ∧
    slot.m_Music.m_StartTime = RageTimer.zero ∧
    slot.m_NewTiming.m_BPMSegments = [⟨0, 120⟩] ∧
    slot.m_NewTiming.m_fBeat0OffsetInSeconds
      = MusicPlaying.new.m_NewTiming.GetElapsedTimeFromBeat (fmodfp s.GAMESTATE.m_fSongBeat 1) ∧
    slot.m_NewTiming.m_fBeat0OffsetInSeconds = fmodfp s.GAMESTATE.m_fSongBeat 1 / 2 ∧
    0 ≤ slot.m_NewTiming.m_fBeat0OffsetInSeconds ∧
    slot.m_NewTiming.m_fBeat0OffsetInSeconds < 1 / 2 ∧
    slot.m_Timing = s.g_Playing.m_Timing ∧ slot.m_TimingDelayed = true ∧
    slot.m_Music.IsPlaying = true ∧ slot.m_Music.GetLoadedFilePath = ToPlay.file := by
  intro request slot
  have hfound := findTiming_of_missing env ToPlay.timing_file MusicPlaying.new.m_NewTiming hmiss
  have hres := StartQueuedMusic_result env ToPlay s hfile
  have hslot := StartQueuedMusic_g_Playing env ToPlay s hfile
  have hH : request.HasTiming = false := by
    show (StartQueuedMusic env ToPlay s).1.HasTiming = false
    rw [hres.2.1, hfound]
  have hN : slot.m_NewTiming
      = untimedOffset s.GAMESTATE.m_fSongBeat MusicPlaying.new.m_NewTiming := by
    show (StartQueuedMusic env ToPlay s).2.g_Playing.m_NewTiming = _
    rw [hres.2.2.1, hfound]
    rfl
  have hoff : slot.m_NewTiming.m_fBeat0OffsetInSeconds
      = MusicPlaying.new.m_NewTiming.GetElapsedTimeFromBeat
          (fmodfp s.GAMESTATE.m_fSongBeat 1) := by
    rw [hN]
    rfl
  have hhalf : slot.m_NewTiming.m_fBeat0OffsetInSeconds
      = fmodfp s.GAMESTATE.m_fSongBeat 1 / 2 := by
    rw [hoff, default_GetElapsedTimeFromBeat]
  have h0 := Int.fract_nonneg s.GAMESTATE.m_fSongBeat
  have h1 := Int.fract_lt_one s.GAMESTATE.m_fSongBeat
  refine ⟨hH, ?_, ?_, ?_, ?_, hoff, hhalf, ?_, ?_, hslot.1, hslot.2.1, hslot.2.2.2.1,
    hslot.2.2.2.2.1⟩
  · show (StartQueuedMusic env ToPlay s).2.g_Playing.m_HasTiming = false
    rw [hslot.2.2.1]
    exact hH
  · rw [hH]
    cases s.g_Playing.m_HasTiming <;> cases s.g_UpdatingTimer <;> rfl
  · show (StartQueuedMusic env ToPlay s).2.g_Playing.m_Music.m_StartTime = _
    rw [hres.2.2.2, hfound]
    have : StartImmediately false s.g_Playing.m_HasTiming s.g_UpdatingTimer = true := by
      cases s.g_Playing.m_HasTiming <;> cases s.g_UpdatingTimer <;> rfl
    rw [if_pos this]
  · rw [hN]
    rfl
  · rw [hhalf, fmodfp_one]
    linarith
  · rw [hhalf, fmodfp_one]
    linarith

/-- C8 at a sample: `c.ogg` has no timing file in the sample world. -/
theorem untimed_start_witness :
    "c.ogg" ≠ "" ∧
    (sampleEnv.IsAFile "c.sm" = false ∨ sampleEnv.ReadFile "c.sm" = none) ∧
    (StartQueuedMusic sampleEnv (requestOf sampleEnv false "c.ogg" "" false 0 (-1) 0)
        sampleGlobals).2.g_Playing.m_NewTiming.m_fBeat0OffsetInSeconds
      = fmodfp sampleGlobals.GAMESTATE.m_fSongBeat 1 / 2 :=
  ⟨by decide, Or.inl (by decide),
    (untimed_start sampleEnv (requestOf sampleEnv false "c.ogg" "" false 0 (-1) 0) sampleGlobals
      (by decide) (Or.inl (by decide))).2.2.2.2.2.2.1⟩

/-! ## What `Update` publishes -/

/-- C7, as the code has it: in a sequence of `Update` frames, a frame with the
song timer on that extrapolates, because no sound is playing or the position is
approximate, publishes the sum of the previously published seconds and the
delta; a frame that reads a position that is not approximate publishes that
position as the sound reports it, whatever was published before. -/
theorem published_seconds_per_frame (s : Globals) (fs : List Frame) (f : Frame)
    (ht : f.g_UpdatingTimer = true) :
    let before := (UpdateFrames s fs).GAMESTATE.m_fMusicSeconds
    let after := (UpdateFrame (UpdateFrames s fs) f).GAMESTATE.m_fMusicSeconds
    (f.IsPlaying = false ∨ f.approximate = true → after = before + f.fDeltaTime) ∧
    (f.IsPlaying = true ∧ f.approximate = false → after = f.fSeconds) := by
  intro before after
  constructor
  · intro h
    cases hp : f.IsPlaying
    · exact (UpdateFrame_of_silent _ f ht hp).1
    · rcases h with h | h
      · rw [hp] at h
        exact absurd h (by decide)
      · exact (UpdateFrame_of_readsApproximate _ f
          (by simp [Frame.readsApproximate, ht, hp, h])).1
  · intro h
    exact UpdateFrame_seconds_of_readsExact _ f (by simp [Frame.readsExact, ht, h.1, h.2])

/-- C7 at a sample: an approximate frame after an approximate frame. -/
theorem published_seconds_per_frame_witness :
    approximateFrame.g_UpdatingTimer = true ∧ approximateFrame.approximate = true ∧
    (UpdateFrame (UpdateFrames sampleGlobals [approximateFrame])
        approximateFrame).GAMESTATE.m_fMusicSeconds
      = (UpdateFrames sampleGlobals [approximateFrame]).GAMESTATE.m_fMusicSeconds
          + approximateFrame.fDeltaTime :=
  ⟨rfl, rfl,
    (published_seconds_per_frame sampleGlobals [approximateFrame] approximateFrame rfl).1
      (Or.inr rfl)⟩

/-- C7 fails as stated.  In the state reached from the initial one (10 seconds
published) by turning the song timer on, `PlayMusic("b.ogg")` and a pass of the
worker, a frame with an approximate position publishes 10.5; the next frame,
song timer on and delta 0.5, reads the real position 0 of the sound that has
just started and publishes 0. -/
theorem published_seconds_per_frame_counterexample :
    approximateFrame.g_UpdatingTimer = true ∧ exactFrame.g_UpdatingTimer = true ∧
    0 < approximateFrame.fDeltaTime ∧ 0 < exactFrame.fDeltaTime ∧
    (UpdateFrames startedGlobals [approximateFrame]).GAMESTATE.m_fMusicSeconds = 21 / 2 ∧
    (UpdateFrames startedGlobals [approximateFrame, exactFrame]).GAMESTATE.m_fMusicSeconds = 0 ∧
    ¬ ((UpdateFrames startedGlobals [approximateFrame]).GAMESTATE.m_fMusicSeconds
        < (UpdateFrames startedGlobals [approximateFrame, exactFrame]).GAMESTATE.m_fMusicSeconds) := by
  have h0 : startedGlobals.GAMESTATE.m_fMusicSeconds = 10 := by
    have hpass : startedGlobals
        = (StartQueuedMusic sampleEnv (requestOf sampleEnv false "b.ogg" "" false 0 (-1) 0)
            (MusicThread_take
              (PlayMusic sampleEnv false "b.ogg" "" false 0 (-1) 0
                (HandleSongTimer true (Globals.init ⟨10, 20, 100⟩)))).2).2 := rfl
    rw [hpass, (StartQueuedMusic_g_Playing sampleEnv _ _ (by decide)).2.2.2.2.2.1]
    rfl
  have h1 : (UpdateFrames startedGlobals [approximateFrame]).GAMESTATE.m_fMusicSeconds
      = 21 / 2 := by
    show (UpdateFrame startedGlobals approximateFrame).GAMESTATE.m_fMusicSeconds = 21 / 2
    rw [(UpdateFrame_of_readsApproximate startedGlobals approximateFrame rfl).1, h0]
    norm_num [approximateFrame]
  have h2 : (UpdateFrames startedGlobals
      [approximateFrame, exactFrame]).GAMESTATE.m_fMusicSeconds = 0 := by
    show (UpdateFrame (UpdateFrame startedGlobals approximateFrame)
      exactFrame).GAMESTATE.m_fMusicSeconds = 0
    rw [UpdateFrame_seconds_of_readsExact _ exactFrame rfl]
    rfl
  refine ⟨rfl, rfl, by norm_num [approximateFrame], by norm_num [exactFrame], h1, h2, ?_⟩
  rw [h1, h2]
  norm_num

/-! ## `PlayMusic` for the file that is playing -/

/-- C9: while the sound of the current slot is playing and its loaded path
equals `file` up to case, `PlayMusic(file, ...)` returns the globals as they
were: the pending request, the current slot with its timing, flags and sound,
the song timer and the published position; so does any number of such calls,
whatever the unassigned field of the local request holds in each of them. -/
theorem PlayMusic_same_file_noop (env : Env) (indeterminate : Bool)
    (file timing_file : String) (force_loop : Bool)
    (start_sec length_sec fade_len : ℚ) (s : Globals)
    (hp : s.g_Playing.m_Music.IsPlaying = true)
    (hsame : CompareNoCase s.g_Playing.m_Music.GetLoadedFilePath file = 0) :
    PlayMusic env indeterminate file timing_file force_loop start_sec length_sec fade_len s
      = s ∧
    (∀ n : ℕ,
      (PlayMusic env indeterminate file timing_file force_loop start_sec length_sec
        fade_len)^[n] s = s) ∧
    ∀ calls : List Bool,
      calls.foldl
        (fun t b => PlayMusic env b file timing_file force_loop start_sec length_sec fade_len t)
        s = s := by
  have h := fun b => PlayMusic_of_same env b file timing_file force_loop start_sec length_sec
    fade_len s hp hsame
  refine ⟨h indeterminate, fun n => ?_, fun calls => ?_⟩
  · induction n with
    | zero => rfl
    | succ n ih => rw [Function.iterate_succ_apply, h indeterminate, ih]
  · induction calls with
    | nil => rfl
    | cons b calls ih => rw [List.foldl_cons, h b, ih]

/-- C9 at a sample: `B.OGG` is asked for while `b.ogg` is playing. -/
theorem PlayMusic_same_file_noop_witness :
    sampleGlobals.g_Playing.m_Music.IsPlaying = true ∧
    CompareNoCase sampleGlobals.g_Playing.m_Music.GetLoadedFilePath "B.OGG" = 0 ∧
    PlayMusic sampleEnv false "B.OGG" "" false 0 (-1) 0 sampleGlobals = sampleGlobals :=
  ⟨rfl, by decide,
    (PlayMusic_same_file_noop sampleEnv true "B.OGG" "" false 0 (-1) 0 sampleGlobals rfl
      (by decide)).1⟩

/-! ## Extrapolation in silence -/

/-- C10: with the song timer on and the sound of the current slot not playing,
`Update(delta)` publishes the previously published seconds plus the delta and
the beat the confirmed timing gives for that sum (10.0 and 0.5 give 10.5), and
leaves the slot, with `m_Timing`, `m_NewTiming` and `m_TimingDelayed`, as it was,
whatever `m_TimingDelayed` is. -/
theorem Update_extrapolates_in_silence (fDeltaTime fSeconds : ℚ) (approximate : Bool)
    (s : Globals) (ht : s.g_UpdatingTimer = true)
    (hp : s.g_Playing.m_Music.IsPlaying = false) :
    let after := Update fDeltaTime fSeconds approximate s
    after.GAMESTATE.m_fMusicSeconds = s.GAMESTATE.m_fMusicSeconds + fDeltaTime ∧
    after.GAMESTATE.m_fSongBeat
      = s.g_Playing.m_Timing.GetBeatFromElapsedTime
          (s.GAMESTATE.m_fMusicSeconds + fDeltaTime) ∧
    (s.GAMESTATE.m_fMusicSeconds = 10 → fDeltaTime = 1 / 2 →
      after.GAMESTATE.m_fMusicSeconds = 21 / 2) ∧
    after.g_Playing = s.g_Playing ∧
    after.g_Playing.m_Timing = s.g_Playing.m_Timing ∧
    after.g_Playing.m_NewTiming = s.g_Playing.m_NewTiming ∧
    after.g_Playing.m_TimingDelayed = s.g_Playing.m_TimingDelayed := by
  intro after
  have h : after = { s with
      GAMESTATE :=
        (s.GAMESTATE.UpdateSongPosition (s.GAMESTATE.m_fMusicSeconds + fDeltaTime)
          s.g_Playing.m_Timing) } := by
    show Update fDeltaTime fSeconds approximate s = _
    unfold Update
    simp [ht, hp]
  rw [h]
  refine ⟨rfl, rfl, fun h10 hd => ?_, rfl, rfl, rfl, rfl⟩
  show s.GAMESTATE.m_fMusicSeconds + fDeltaTime = 21 / 2
  rw [h10, hd]
  norm_num

/-- C10 at a sample: the sample state with its sound stopped, still delayed;
10 seconds published and a delta of 1/2. -/
theorem Update_extrapolates_in_silence_witness :
    (setPlaying false sampleGlobals).g_UpdatingTimer = true ∧
    (setPlaying false sampleGlobals).g_Playing.m_Music.IsPlaying = false ∧
    (setPlaying false sampleGlobals).g_Playing.m_TimingDelayed = true ∧
    (setPlaying false sampleGlobals).GAMESTATE.m_fMusicSeconds = 10 ∧
    (Update (1 / 2) 0 false (setPlaying false sampleGlobals)).GAMESTATE.m_fMusicSeconds
      = 21 / 2 :=
  ⟨rfl, rfl, rfl, rfl,
    (Update_extrapolates_in_silence (1 / 2) 0 false (setPlaying false sampleGlobals) rfl
      rfl).2.2.1 rfl rfl⟩

/-! ## The song timer off -/

/-- C11: with `g_UpdatingTimer` false, `Update` returns the globals as they were
for every delta and every answer of the sound: nothing is published, the
published seconds and beat stay, and `m_Timing`, `m_NewTiming` and
`m_TimingDelayed` of the current slot stay, whether or not the sound is playing,
its position is exact or the slot is delayed.  The initial globals and the
globals after `HandleSongTimer(false)` are such states. -/
theorem Update_timer_off_noop (fDeltaTime fSeconds : ℚ) (approximate : Bool) (s : Globals)
    (hoff : s.g_UpdatingTimer = false) :
    let after := Update fDeltaTime fSeconds approximate s
    after = s ∧
    after.GAMESTATE.m_fMusicSeconds = s.GAMESTATE.m_fMusicSeconds ∧
    after.GAMESTATE.m_fSongBeat = s.GAMESTATE.m_fSongBeat ∧
    after.g_Playing.m_Timing = s.g_Playing.m_Timing ∧
    after.g_Playing.m_NewTiming = s.g_Playing.m_NewTiming ∧
    after.g_Playing.m_TimingDelayed = s.g_Playing.m_TimingDelayed ∧
    (∀ g : GameState,
      Update fDeltaTime fSeconds approximate (Globals.init g) = Globals.init g) ∧
    (∀ t : Globals,
      Update fDeltaTime fSeconds approximate (HandleSongTimer false t)
        = HandleSongTimer false t) := by
  intro after
  have hoffs : ∀ t : Globals, t.g_UpdatingTimer = false →
      Update fDeltaTime fSeconds approximate t = t := by
    intro t ht
    unfold Update
    simp [ht]
  have h : after = s := hoffs s hoff
  rw [h]
  exact ⟨rfl, rfl, rfl, rfl, rfl, rfl, fun g => hoffs _ rfl, fun t => hoffs _ rfl⟩

/-- C11 at a sample: the song timer is turned off over the sample state, whose
sound is playing and whose slot is delayed, and the sound reports the exact
position 5. -/
theorem Update_timer_off_noop_witness :
    (HandleSongTimer false sampleGlobals).g_UpdatingTimer = false ∧
    (HandleSongTimer false sampleGlobals).g_Playing.m_Music.IsPlaying = true ∧
    (HandleSongTimer false sampleGlobals).g_Playing.m_TimingDelayed = true ∧
    Update (1 / 2) 5 false (HandleSongTimer false sampleGlobals)
      = HandleSongTimer false sampleGlobals :=
  ⟨rfl, rfl, rfl,
    (Update_timer_off_noop (1 / 2) 5 false (HandleSongTimer false sampleGlobals) rfl).1⟩

end RageSounds

namespace NoteField

/-! ## Hold notes on and off the screen -/

/-- C12: for a hold note with `fStartBeat ≤ fEndBeat` and a draw window with
`fFirstBeatToDraw ≤ fLastBeatToDraw`, the three-way disjunction of the on-screen
test holds exactly when `fStartBeat ≤ fLastBeatToDraw` and
`fEndBeat ≥ fFirstBeatToDraw`, and the note is skipped by the test exactly when
no beat lies both in `[fStartBeat, fEndBeat]` and in
`[fFirstBeatToDraw, fLastBeatToDraw]`.  So a note of column `c` that is not
completed is drawn exactly when the two intervals meet. -/
theorem hold_note_skipped_iff_off_screen (fFirstBeatToDraw fLastBeatToDraw : ℚ)
    (hn : HoldNote) (hnote : hn.fStartBeat ≤ hn.fEndBeat)
    (hwindow : fFirstBeatToDraw ≤ fLastBeatToDraw) :
    (partOnScreen fFirstBeatToDraw fLastBeatToDraw hn = true ↔
      hn.fStartBeat ≤ fLastBeatToDraw ∧ hn.fEndBeat ≥ fFirstBeatToDraw) ∧
    (skippedOffScreen fFirstBeatToDraw fLastBeatToDraw hn = true ↔
      ¬ ∃ x : ℚ, hn.fStartBeat ≤ x ∧ x ≤ hn.fEndBeat ∧
        fFirstBeatToDraw ≤ x ∧ x ≤ fLastBeatToDraw) ∧
    (drawsHold hn.iTrack fFirstBeatToDraw fLastBeatToDraw hn false = true ↔
      ∃ x : ℚ, hn.fStartBeat ≤ x ∧ x ≤ hn.fEndBeat ∧
        fFirstBeatToDraw ≤ x ∧ x ≤ fLastBeatToDraw) := by
  have hon : partOnScreen fFirstBeatToDraw fLastBeatToDraw hn = true ↔
      hn.fStartBeat ≤ fLastBeatToDraw ∧ hn.fEndBeat ≥ fFirstBeatToDraw := by
    unfold partOnScreen
    simp only [Bool.or_eq_true, Bool.and_eq_true, decide_eq_true_eq]
    constructor
    · rintro ((⟨h1, h2⟩ | ⟨h1, h2⟩) | ⟨h1, h2⟩)
      · exact ⟨le_trans hnote h2, h1⟩
      · exact ⟨h2, le_trans h1 hnote⟩
      · exact ⟨le_trans (le_of_lt h1) hwindow, le_trans hwindow (le_of_lt h2)⟩
    · rintro ⟨h1, h2⟩
      by_cases hend : hn.fEndBeat ≤ fLastBeatToDraw
      · exact Or.inl (Or.inl ⟨h2, hend⟩)
      · by_cases hstart : fFirstBeatToDraw ≤ hn.fStartBeat
        · exact Or.inl (Or.inr ⟨hstart, h1⟩)
        · exact Or.inr ⟨lt_of_not_le hstart, lt_of_not_le hend⟩
  have hmeet : (∃ x : ℚ, hn.fStartBeat ≤ x ∧ x ≤ hn.fEndBeat ∧
        fFirstBeatToDraw ≤ x ∧ x ≤ fLastBeatToDraw) ↔
      hn.fStartBeat ≤ fLastBeatToDraw ∧ hn.fEndBeat ≥ fFirstBeatToDraw := by
    constructor
    · rintro ⟨x, h1, h2, h3, h4⟩
      exact ⟨le_trans h1 h4, le_trans h3 h2⟩
    · rintro ⟨h1, h2⟩
      by_cases hcase : hn.fStartBeat ≤ fFirstBeatToDraw
      · exact ⟨fFirstBeatToDraw, hcase, h2, le_refl _, hwindow⟩
      · exact ⟨hn.fStartBeat, le_refl _, hnote, le_of_lt (lt_of_not_le hcase), h1⟩
  refine ⟨hon, ?_, ?_⟩
  · unfold skippedOffScreen
    rw [hmeet, ← hon]
    simp
  · unfold drawsHold skippedOffScreen
    rw [hmeet, ← hon]
    cases partOnScreen fFirstBeatToDraw fLastBeatToDraw hn <;> simp

/-- C12 at a sample: the hold from beat 3 to beat 30 spans the window from beat
10 to beat 20, so neither of its ends is in the window, and it is not skipped. -/
theorem hold_note_skipped_iff_off_screen_witness :
    sampleHold.fStartBeat ≤ sampleHold.fEndBeat ∧ (10 : ℚ) ≤ 20 ∧
    partOnScreen 10 20 sampleHold = true :=
  ⟨by norm_num [sampleHold], by norm_num,
    (hold_note_skipped_iff_off_screen 10 20 sampleHold (by norm_num [sampleHold])
      (by norm_num)).1.mpr ⟨by norm_num [sampleHold], by norm_num [sampleHold]⟩⟩

end NoteField
